import Mathlib

/-!
Shallow embedding of the timetable generator (src/timetable_gen.py) and
proofs about the claims of its specification.

Conventions used throughout:
* wall-clock times are minutes after midnight (09:00 = 540);
* the day grid has 19 half-hour slots, slot i starting at 540 + 30*i;
* Python dictionaries keyed by strings become association lists or total
  functions with a default, as noted at each definition;
* in-place mutation of the room registers is modelled by explicit store
  passing: the choice of room is computed first and the marking of its
  schedule is applied to the store by the caller, exactly where the
  source mutates the aliased room dictionary.
-/

namespace Timetable

/-- Session kinds recorded in the grid; the source uses the strings
"LEC", "LAB", "TUT", "SS". -/
inductive Kind
  | LEC
  | LAB
  | TUT
  | SS
deriving DecidableEq

/-- COURSE_PARAMETERS slot lengths: LECTURE=3, LAB=4, TUT=2, SELF_STUDY=2. -/
def kindLen : Kind → ℕ
  | .LEC => 3
  | .LAB => 4
  | .TUT => 2
  | .SS => 2

/-- COURSE_PARAMETERS BUFFER. -/
def BUFFER : ℕ := 1

/-- Number of 30-minute slots between DAY_START 09:00 and DAY_END 18:30. -/
def numSlots : ℕ := 19

/-- len(CLASS_DAYS). -/
def numDays : ℕ := 5

/-- The half-open time range of slot i, in minutes (create_time_grid). -/
def timeSlotAt (i : ℕ) : ℕ × ℕ := (540 + 30 * i, 570 + 30 * i)

/-- all_time_slots as built by create_time_grid. -/
def all_time_slots : List (ℕ × ℕ) := (List.range numSlots).map timeSlotAt

theorem all_time_slots_length : all_time_slots.length = 19 := by decide

/-- Meal schedules: entries (semesterBase, mealStartMin, mealEndMin); the
source keeps them in the global dict meal_schedules. -/
abbrev MealSched : Type := List (ℕ × ℕ × ℕ)

/-- Dictionary lookup meal_schedules[base]. -/
def lookupMeal (meals : MealSched) (base : ℕ) : Option (ℕ × ℕ) :=
  match List.find? (fun m => m.1 == base) meals with
  | some m => some m.2
  | none => none

/-- int(str(semester)[0]) for semester labels that begin with a digit:
the numeric value of the first character (e.g. 4 from "4A"). -/
def semBaseOf (sem : String) : ℕ := (sem.data.headD '0').toNat - '0'.toNat

/-- is_break_period: true iff the start of the time slot lies in the
10:30-11:00 morning break (630..660 minutes) or, when a semester is
given, in the meal window stored for its base; with no semester, in any
stored meal window. -/
def is_break_period (meals : MealSched) (time_slot : ℕ × ℕ) (semBase : Option ℕ) : Bool :=
  let start_time := time_slot.1
  let morning_break := decide (630 ≤ start_time ∧ start_time < 660)
  let is_meal_time :=
    match semBase with
    | some b =>
        match lookupMeal meals b with
        | some p => decide (p.1 ≤ start_time ∧ start_time < p.2)
        | none => false
    | none => meals.any fun m => decide (m.2.1 ≤ start_time ∧ start_time < m.2.2)
  morning_break || is_meal_time

/-!
String methods are modelled on the underlying character lists (the
library versions compute over byte positions, which the kernel cannot
evaluate); each helper mirrors the corresponding Python str method.
-/

/-- Python s.startswith(t). -/
def strStartsWith (s t : String) : Bool := decide (t.data <+: s.data)

/-- Python "c in s" for a single character. -/
def strHasChar (s : String) (c : Char) : Bool := s.data.contains c

/-- Python s.split(sep) on character lists (sep a single character). -/
def splitOnChar (sep : Char) : List Char → List (List Char)
  | [] => [[]]
  | c :: rest =>
      let r := splitOnChar sep rest
      if c = sep then [] :: r
      else
        match r with
        | h :: t => (c :: h) :: t
        | [] => [[c]]

/-- Python s.split(sep). -/
def strSplit (s : String) (sep : Char) : List String :=
  (splitOnChar sep s.data).map String.mk

/-- Python s.upper(). -/
def strUpper (s : String) : String := ⟨s.data.map Char.toUpper⟩

/-- Python s.strip(). -/
def strTrim (s : String) : String :=
  ⟨(((s.data.dropWhile Char.isWhitespace).reverse).dropWhile Char.isWhitespace).reverse⟩

/-- is_elective_course: the code starts with "B" and contains a dash. -/
def is_elective_course (code : String) : Bool :=
  strStartsWith code "B" && strHasChar code '-'

/-- get_elective_group: the part of an elective code before the dash. -/
def get_elective_group (code : String) : Option String :=
  if is_elective_course code then some ((strSplit code '-').headD code) else none

/-- choose_instructor: the first slash-separated alternative, stripped. -/
def choose_instructor (faculty_string : String) : String :=
  if strHasChar faculty_string '/' then
    (((strSplit faculty_string '/').map strTrim).headD faculty_string)
  else faculty_string

/-- A catalog row, with the fields the scheduler reads. L is kept as a
rational (the source parses it with float()). -/
structure Course where
  code : String
  name : String
  faculty : String
  L : ℚ
  T : ℕ
  P : ℕ
  S : ℕ
deriving DecidableEq

/-- The instructor string actually used by generate_all_timetables
(line 669: instructor = str(course["Faculty"])): the raw Faculty cell. -/
def schedInstructor (c : Course) : String := c.faculty

/-- Python round(): round half to even. -/
def pyRound (q : ℚ) : ℤ :=
  let f := ⌊q⌋
  let r := q - f
  if r < 1 / 2 then f
  else if 1 / 2 < r then f + 1
  else if f % 2 = 0 then f else f + 1

/-- determine_required_sessions on the credit tuple (L, T, P, S). -/
def determine_required_sessions (L : ℚ) (T P S : ℕ) : ℕ × ℕ × ℕ × ℕ :=
  if 0 < S ∧ L = 0 ∧ T = 0 ∧ P = 0 then (0, 0, 0, 0)
  else
    let lec_sessions := if 0 < L then (max 1 (pyRound (L * 2 / 3))).toNat else 0
    let tut_sessions := T
    let lab_sessions := P / 2
    let ss_sessions := if 0 < L ∨ 0 < T ∨ 0 < P then S / 4 else 0
    (lec_sessions, tut_sessions, lab_sessions, ss_sessions)

/-- The session-count mapping in the words of the specification (claim C8):
self-study-only courses get no sessions; otherwise lectures are
max(1, round(L*2/3)) when L is positive else 0, tutorials are T, labs are
P // 2, and self-study is S // 4 when any of L, T, P is positive else 0. -/
def sessionsSpec (L : ℚ) (T P S : ℕ) : ℕ × ℕ × ℕ × ℕ :=
  if 0 < S ∧ L = 0 ∧ T = 0 ∧ P = 0 then
    (0, 0, 0, 0)
  else
    ((if 0 < L then (max 1 (pyRound (L * 2 / 3))).toNat else 0),
      T,
      P / 2,
      (if 0 < L ∨ 0 < T ∨ 0 < P then S / 4 else 0))

/-- determine_room_type, using code membership tests as in the source
(the code string is upper-cased first). -/
def strContains (s t : String) : Bool := decide (t.data <:+: s.data)

/-- determine_room_type: labs go to COMPUTER_LAB or HARDWARE_LAB by code
contents, everything else to LECTURE_ROOM. -/
def determine_room_type (c : Course) : String :=
  if 0 < c.P then
    let cc := strUpper c.code
    if strContains cc "CS" || strContains cc "DS" then "COMPUTER_LAB"
    else if strContains cc "EC" then "HARDWARE_LAB"
    else "COMPUTER_LAB"
  else "LECTURE_ROOM"

/-- Outcome of a single pandas read_csv attempt under one encoding in
try_load_csv: success with the parsed rows, a UnicodeDecodeError, or any
other exception (e.g. FileNotFoundError when the file is missing). -/
inductive LoadAttempt (α : Type)
  | ok (rows : List α)
  | unicodeErr
  | otherErr (msg : String)
deriving DecidableEq

/-- try_load_csv over the list of encoding attempts: the first successful
parse wins; if every encoding fails, a diagnostic is printed and an empty
frame is returned (no exception escapes). -/
def try_load_csv {α : Type} : List (LoadAttempt α) → List α
  | [] => []
  | .ok rows :: _ => rows
  | .unicodeErr :: rest => try_load_csv rest
  | .otherErr _ :: rest => try_load_csv rest

/-- Result of one run of generate_all_timetables, as far as the external
contract is concerned. -/
structure RunResult where
  returnedFiles : List String
  savedWorkbook : Bool
  printedDiagnostic : Bool
  raisedException : Bool
deriving DecidableEq

/-- Control-flow skeleton of generate_all_timetables around the catalog
load (lines 602-606): when the loaded frame is empty the run prints an
error and returns the dummy name list without ever reaching the workbook
save; otherwise the rest of the run proceeds (abstracted by restOfRun). -/
def runSkeleton (attempts : List (LoadAttempt Course))
    (restOfRun : List Course → RunResult) : RunResult :=
  let course_data := try_load_csv attempts
  if course_data.isEmpty then
    ⟨["error.xlsx"], false, true, false⟩
  else restOfRun course_data

theorem try_load_csv_all_fail {α : Type} (attempts : List (LoadAttempt α))
    (h : ∀ rows, LoadAttempt.ok rows ∉ attempts) : try_load_csv attempts = [] := by
  induction attempts with
  | nil => rfl
  | cons a rest ih =>
      cases a with
      | ok rows => exact absurd (List.mem_cons_self _ _) (h rows)
      | unicodeErr =>
          exact ih fun rows hm => h rows (List.mem_cons_of_mem _ hm)
      | otherErr m =>
          exact ih fun rows hm => h rows (List.mem_cons_of_mem _ hm)

/-! ### The section grid -/

/-- One cell of a weekly section timetable, as initialised in
generate_all_timetables: a kind (or none), and the code, name, faculty
and classroom strings (non-empty only on the first covered slot). -/
structure SlotRec where
  type : Option Kind
  code : String
  name : String
  faculty : String
  classroom : String
deriving DecidableEq

/-- The all-empty cell. -/
def emptyRec : SlotRec := ⟨none, "", "", "", ""⟩

/-- A weekly timetable: day index -> slot index -> cell (meaningful for
day < 5 and slot < 19, everywhere emptyRec at start). -/
abbrev SectionTT : Type := ℕ → ℕ → SlotRec

/-- The freshly initialised grid. -/
def emptyTT : SectionTT := fun _ _ => emptyRec

/-! ### Rooms and the room allocator -/

/-- A room as built by import_facilities: capacity, type string, room
number string, and a per-day occupied-slot set (initially empty). -/
structure Room where
  capacity : ℕ
  rtype : String
  roomNumber : String
  sched : ℕ → Finset ℕ

/-- The room inventory, an insertion-ordered dictionary id -> room. -/
abbrev RoomMap : Type := List (String × Room)

/-- Dictionary lookup rooms[id]. -/
def lookupRoom (rooms : RoomMap) (id : String) : Option Room :=
  (rooms.find? (fun p => p.1 == id)).map (fun p => p.2)

/-- int("".join(filter(str.isdigit, s))): the number formed by the digit
characters of s (0 when there are none; the source would raise there). -/
def digitsVal (s : String) : ℕ :=
  (s.data.filter Char.isDigit).foldl (fun a c => a * 10 + (c.toNat - '0'.toNat)) 0

/-- find_adjacent_room: the first other room of the same type whose
numeric room number is on the same floor (quotient by 100) and differs
by exactly one. -/
def find_adjacent_room (room_id : String) (rooms : RoomMap) : Option String :=
  if room_id = "" then none
  else
    match lookupRoom rooms room_id with
    | none => none
    | some cur =>
        let current_num := digitsVal cur.roomNumber
        let current_floor := current_num / 100
        (rooms.find? (fun p =>
          p.1 != room_id && p.2.rtype == cur.rtype &&
          (let room_num := digitsVal p.2.roomNumber
           room_num / 100 == current_floor &&
             ((room_num : ℤ) - (current_num : ℤ)).natAbs == 1))).map (fun p => p.1)

/-- The availability loop of allocate_room: none of the duration slots
from start_slot is in the occupied set for the day. -/
def roomFree (r : Room) (day start_slot duration : ℕ) : Bool :=
  (List.range duration).all fun i => decide ((start_slot + i) ∉ r.sched day)

/-- Add the covered slots to the occupied set of one day (the in-place
schedule[day].add calls of the source). -/
def markSched (r : Room) (day start_slot duration : ℕ) : Room :=
  { r with sched := fun d =>
      if d = day then r.sched day ∪ (Finset.range duration).image (fun i => start_slot + i)
      else r.sched d }

/-- Mark one room of the store (the source mutates the aliased dict). -/
def markRoomId (rooms : RoomMap) (id : String) (day start_slot duration : ℕ) : RoomMap :=
  rooms.map fun p => if p.1 = id then (p.1, markSched p.2 day start_slot duration) else p

/-- allocate_room as a pure choice: the first room of the map passing the
exclusion, library, type, capacity and availability filters. The source
also marks the chosen room; the callers below apply markRoomId exactly
when the result is some id. -/
def allocate_room (room_map : RoomMap) (room_type : String)
    (required_size day start_slot duration : ℕ) (excluded_rooms : List String) :
    Option String :=
  match room_map with
  | [] => none
  | (room_id, room) :: rest =>
      let next := allocate_room rest room_type required_size day start_slot duration
        excluded_rooms
      if excluded_rooms.contains room_id || (strUpper room.rtype) == "LIBRARY" then next
      else if (room_type == "LEC" || room_type == "TUT" || room_type == "SELF_STUDY") &&
          !(strContains (strUpper room.rtype) "LECTURE_ROOM" ||
            strContains (strUpper room.rtype) "SEATER") then next
      else if room_type == "COMPUTER_LAB" && (strUpper room.rtype) != "COMPUTER_LAB" then next
      else if room_type == "HARDWARE_LAB" && (strUpper room.rtype) != "HARDWARE_LAB" then next
      else if !(room_type == "COMPUTER_LAB" || room_type == "HARDWARE_LAB") &&
          room.capacity < required_size then next
      else if roomFree room day start_slot duration then some room_id
      else next

/-- The adjacent-pair search of assign_suitable_room for oversized labs:
walk the store in order; at the first available room of the requested lab
type, look for an adjacent room, and take the pair when that adjacent
room is not excluded and also free; otherwise keep walking. -/
def pairScan (scan all : RoomMap) (course_type : String)
    (day start_slot duration : ℕ) (excluded : List String) :
    Option (String × String) :=
  match scan with
  | [] => none
  | (room_id, room) :: rest =>
      let next := pairScan rest all course_type day start_slot duration excluded
      if excluded.contains room_id || (strUpper room.rtype) != course_type then next
      else if roomFree room day start_slot duration then
        match find_adjacent_room room_id all with
        | some adjacent_room =>
            if !excluded.contains adjacent_room then
              match lookupRoom all adjacent_room with
              | some aroom =>
                  if roomFree aroom day start_slot duration then some (room_id, adjacent_room)
                  else next
              | none => next
            else next
        | none => next
      else next

/-- Python dict assignment d[k] = v on a string dictionary. -/
def dictSet (l : List (String × String)) (k v : String) : List (String × String) :=
  if l.any (fun p => p.1 == k) then l.map (fun p => if p.1 == k then (k, v) else p)
  else l ++ [(k, v)]

/-- Dictionary lookup on a string dictionary. -/
def dictGet (l : List (String × String)) (k : String) : Option String :=
  (l.find? (fun p => p.1 == k)).map (fun p => p.2)

/-- The inner slot loop of the elective scan: visit the covered slots in
order; at the first slot occupied in the room register, consult the
section grid at that slot and either remember the room for its elective
group course or locally exclude it, then stop (the loop breaks). Returns
none when the room is free over the whole range. -/
def electiveSlotScan (tt : SectionTT) (room_id : String) (room : Room)
    (elective_group : Option String) (day : ℕ) :
    List ℕ → List String × List (String × String) →
    Option (List String × List (String × String))
  | [], _ => none
  | slot :: rest, (exc, grp) =>
      if decide (slot ∈ room.sched day) then
        if slot < numSlots then
          let slot_data := tt day slot
          if slot_data.classroom == room_id && slot_data.type.isSome then
            if get_elective_group slot_data.code == elective_group then
              some (exc, dictSet grp slot_data.code room_id)
            else some (room_id :: exc, grp)
          else some (exc, grp)
        else some (exc, grp)
      else electiveSlotScan tt room_id room elective_group day rest (exc, grp)

/-- The room loop of the elective branch over the usage-sorted candidate
rooms, threading the local exclusion list and group-room dictionary. A
room that is free over the range, not locally excluded, and of adequate
capacity is chosen; every other candidate just updates the bookkeeping. -/
def electiveRoomScan (tt : SectionTT) (elective_group : Option String)
    (required_size day start_slot duration : ℕ) :
    RoomMap → List String × List (String × String) →
    Option String × (List String × List (String × String))
  | [], acc => (none, acc)
  | (room_id, room) :: rest, (exc, grp) =>
      match electiveSlotScan tt room_id room elective_group day
          ((List.range duration).map (fun i => start_slot + i)) (exc, grp) with
      | none =>
          if !exc.contains room_id && required_size ≤ room.capacity then
            (some room_id, (exc, grp))
          else
            electiveRoomScan tt elective_group required_size day start_slot duration
              rest (exc, grp)
      | some acc2 =>
          electiveRoomScan tt elective_group required_size day start_slot duration
            rest acc2

/-- One enrollment record of import_enrollment_data. -/
structure EnrollInfo where
  total : ℕ
  num_sections : ℕ
  section_size : ℕ
deriving DecidableEq

/-- enrollment_data: a dictionary keyed by (Department, Semester) pairs,
with elective registrations stored under ("ELECTIVE", course code). -/
abbrev EnrollData : Type := List ((String × String) × EnrollInfo)

/-- Dictionary get on enrollment data. -/
def lookupEnroll (e : EnrollData) (k : String × String) : Option EnrollInfo :=
  (e.find? (fun p => p.1 == k)).map (fun p => p.2)

/-- Weekly usage of a room: the sum over all days of the occupied-set
sizes (the room_usage statistic of the elective branch). -/
def weeklyUsage (r : Room) : ℕ :=
  ∑ d ∈ Finset.range numDays, (r.sched d).card

/-- sorted(rooms.items(), key=usage): stable sort, ascending usage. -/
def sortByUsage (l : RoomMap) : RoomMap :=
  l.mergeSort (fun a b => weeklyUsage a.2 ≤ weeklyUsage b.2)

/-- The required capacity computed at the head of assign_suitable_room:
the elective registration size for electives, the (department, semester)
section size otherwise, with 60 as the fallback. -/
def requiredSizeFor (enroll : EnrollData) (department semester course_code : String) : ℕ :=
  if enroll.isEmpty then 60
  else if is_elective_course course_code then
    match lookupEnroll enroll ("ELECTIVE", course_code) with
    | some info => info.section_size
    | none => 60
  else
    match lookupEnroll enroll (department, semester) with
    | some info => info.section_size
    | none => 60

/-- The lecture-type candidate sub-dictionary of the elective branch. -/
def lectureRoomsOf (store : RoomMap) : RoomMap :=
  store.filter (fun p => strContains (strUpper p.2.rtype) "LECTURE_ROOM")

/-- The seater candidate sub-dictionary of the elective branch. -/
def seaterRoomsOf (store : RoomMap) : RoomMap :=
  store.filter (fun p => strContains (strUpper p.2.rtype) "SEATER")

/-- assign_suitable_room. The in-place markings of the source are applied
to the returned store: exactly the room (or pair of rooms) handed out is
marked, except on the elective group-room reuse branch, which the source
returns from without touching any schedule. -/
def assign_suitable_room (course_type department semester : String)
    (day start_slot duration : ℕ) (rooms : Option RoomMap) (enroll : EnrollData)
    (timetable : SectionTT) (course_code : String) (excluded_rooms : List String) :
    Option String × Option RoomMap :=
  match rooms with
  | none => (some "DEFAULT_ROOM", none)
  | some store =>
      let is_elective := is_elective_course course_code
      let required_size : ℕ := requiredSizeFor enroll department semester course_code
      let rooms_to_exclude := excluded_rooms
      let single (res : Option String) : Option String × Option RoomMap :=
        match res with
        | some rid => (some rid, some (markRoomId store rid day start_slot duration))
        | none => (none, some store)
      if course_type == "COMPUTER_LAB" || course_type == "HARDWARE_LAB" then
        let oversized :=
          match lookupEnroll enroll (department, semester) with
          | some info => decide (35 < info.total)
          | none => false
        let fallback := single (allocate_room store course_type required_size day
          start_slot duration rooms_to_exclude)
        if oversized then
          match pairScan store store course_type day start_slot duration rooms_to_exclude with
          | some (a, b) =>
              (some (a ++ "," ++ b),
                some (markRoomId (markRoomId store a day start_slot duration) b day
                  start_slot duration))
          | none => fallback
        else fallback
      else if course_type == "LEC" || course_type == "TUT" || course_type == "SELF_STUDY" ||
          is_elective then
        let lecture_rooms := lectureRoomsOf store
        let seater_rooms := seaterRoomsOf store
        if is_elective then
          let elective_group := get_elective_group course_code
          match electiveRoomScan timetable elective_group required_size day start_slot
              duration (sortByUsage lecture_rooms ++ sortByUsage seater_rooms) ([], []) with
          | (some rid, _) => (some rid, some (markRoomId store rid day start_slot duration))
          | (none, (exc, grp)) =>
              match dictGet grp course_code with
              | some rid => (some rid, some store)
              | none =>
                  match allocate_room lecture_rooms "LEC" required_size day start_slot
                      duration exc with
                  | some rid => (some rid, some (markRoomId store rid day start_slot duration))
                  | none =>
                      single (allocate_room seater_rooms "LEC" required_size day start_slot
                        duration exc)
        else
          match allocate_room lecture_rooms "LEC" required_size day start_slot duration
              rooms_to_exclude with
          | some rid => (some rid, some (markRoomId store rid day start_slot duration))
          | none =>
              single (allocate_room seater_rooms "LEC" required_size day start_slot
                duration rooms_to_exclude)
      else
        single (allocate_room store course_type required_size day start_slot duration
          rooms_to_exclude)

/-! ### The constraint oracle -/

/-- The global instructor register: instructor -> day -> occupied slot
set. The source creates entries lazily; an untouched entry is empty. -/
abbrev InstrSched : Type := String → ℕ → Finset ℕ

/-- is_slot_reserved: always false (reserved_slots.csv is not used). -/
def is_slot_reserved (_slot : ℕ × ℕ) (_day _semester _department : String) : Bool :=
  false

/-- is_activity_scheduled: some slot of [start_slot, end_slot) in the
section grid carries a LEC, LAB or TUT. -/
def is_activity_scheduled (timetable : SectionTT) (day start_slot end_slot : ℕ) : Bool :=
  (List.range' start_slot (end_slot - start_slot)).any fun slot =>
    decide (slot < numSlots) &&
      match (timetable day slot).type with
      | some k => decide (k = .LEC ∨ k = .LAB ∨ k = .TUT)
      | none => false

/-- The per-slot test of check_course_session_spacing: the slot is in
the instructor register and the grid cell there carries a LEC or TUT
whose code equals the course code. -/
def spacing_conflict (instructor_schedule : InstrSched) (timetable : SectionTT)
    (instructor course_code : String) (day i : ℕ) : Bool :=
  decide (i ∈ instructor_schedule instructor day) &&
    ((timetable day i).code == course_code) &&
    (match (timetable day i).type with
     | some k => decide (k = .LEC ∨ k = .TUT)
     | none => false)

/-- check_course_session_spacing: the placement is rejected when a slot
within gap_slots = 6 before start_slot, or within the window
[start_slot+1, min(19, start_slot+6)) after it, is occupied by this
instructor and carries, in this section grid, a LEC or TUT cell whose
code equals the course code. -/
def check_course_session_spacing (instructor_schedule : InstrSched)
    (timetable : SectionTT) (instructor course_code : String)
    (day start_slot : ℕ) : Bool :=
  let gap_slots := 6
  let lo := start_slot - gap_slots
  let prevBad := (List.range' lo (start_slot - lo)).any
    (spacing_conflict instructor_schedule timetable instructor course_code day)
  let nextBad := (List.range' (start_slot + 1)
    (min numSlots (start_slot + gap_slots) - (start_slot + 1))).any
    (spacing_conflict instructor_schedule timetable instructor course_code day)
  !(prevBad || nextBad)

/-- One grid cell qualifies for the workload count when its faculty is
the instructor, its kind is LEC, LAB or TUT, and its code is nonempty. -/
def workloadQualifies (instructor : String) (r : SlotRec) : Bool :=
  r.faculty == instructor &&
    (match r.type with
     | some k => decide (k = .LEC ∨ k = .LAB ∨ k = .TUT)
     | none => false) &&
    r.code != ""

/-- One iteration of the counting loop of check_instructor_workload: a
non-elective qualifying cell counts one; an elective qualifying cell
counts one the first time its code is seen (instructor_courses is the
second accumulator component). -/
def workloadStep (instructor : String) (r : SlotRec) (acc : ℕ × List String) :
    ℕ × List String :=
  if workloadQualifies instructor r then
    if !is_elective_course r.code then (acc.1 + 1, acc.2)
    else if !acc.2.contains r.code then (acc.1 + 1, r.code :: acc.2)
    else acc
  else acc

/-- The counting loop of check_instructor_workload: walk the 19 cells of
the day; non-elective qualifying cells count one each, elective
qualifying cells count once per distinct code. -/
def workloadFold (tt : SectionTT) (day : ℕ) (instructor : String) : ℕ × List String :=
  (List.range numSlots).foldl
    (fun acc slot => workloadStep instructor (tt day slot) acc) (0, [])

/-- sessions_count of check_instructor_workload. -/
def sessions_count (tt : SectionTT) (day : ℕ) (instructor : String) : ℕ :=
  (workloadFold tt day instructor).1

/-- find_group_slots: the day cells whose (nonempty) code belongs to the
given elective group. -/
def find_group_slots (timetable : SectionTT) (day : ℕ) (group : Option String) : List ℕ :=
  (List.range numSlots).filter fun slot =>
    let code := (timetable day slot).code
    code != "" && get_elective_group code == group

/-- check_instructor_workload: electives with a group cell already on the
grid today are allowed up to sessions_count < 3, everything else up to
sessions_count < 2. The unused source parameters (the register, the
department, semester, section and activity type) are dropped. -/
def check_instructor_workload (tt : SectionTT) (day : ℕ)
    (instructor course_code : String) : Bool :=
  let cnt := sessions_count tt day instructor
  if course_code != "" && is_elective_course course_code then
    if !(find_group_slots tt day (get_elective_group course_code)).isEmpty then
      decide (cnt < 3)
    else decide (cnt < 2)
  else decide (cnt < 2)

/-- find_available_slots: the start positions whose whole duration is
free of instructor, section-grid, break and reserved conflicts. -/
def find_available_slots (timetable : SectionTT) (instructor_schedule : InstrSched)
    (instructor : String) (day duration : ℕ) (meals : MealSched) (semester : String)
    (department : String) : List ℕ :=
  (List.range (numSlots - duration + 1)).filter fun start_slot =>
    (List.range duration).all fun i =>
      let current_slot := start_slot + i
      !(decide (current_slot ∈ instructor_schedule instructor day) ||
        (timetable day current_slot).type.isSome ||
        is_break_period meals (timeSlotAt current_slot) (some (semBaseOf semester)) ||
        is_slot_reserved (timeSlotAt current_slot) "" semester department)

/-! ### The placement engine as a transition system -/

/-- The per-slot availability loop of lecture placement (lines 711-734):
instructor free, grid cell empty, not a break, and no LEC/LAB/TUT
activity in the BUFFER slots just before or just after the cell. -/
def lecSlotsAvailable (instructor_schedule : InstrSched) (tt : SectionTT)
    (instructor : String) (meals : MealSched) (semester : String)
    (day start_slot : ℕ) : Bool :=
  (List.range (kindLen .LEC)).all fun i =>
    let slot_idx := start_slot + i
    !(decide (slot_idx ∈ instructor_schedule instructor day) ||
      (tt day slot_idx).type.isSome ||
      is_break_period meals (timeSlotAt slot_idx) (some (semBaseOf semester))) &&
    (if 0 < slot_idx then
      !is_activity_scheduled tt day (slot_idx - BUFFER) slot_idx
    else true) &&
    (if slot_idx < numSlots - 1 then
      !is_activity_scheduled tt day (slot_idx + 1) (min numSlots (slot_idx + BUFFER + 1))
    else true)

/-- The per-slot availability loop of tutorial and self-study placement:
as for lectures but with no adjacency buffering. -/
def plainSlotsAvailable (instructor_schedule : InstrSched) (tt : SectionTT)
    (instructor : String) (meals : MealSched) (semester : String)
    (day start_slot duration : ℕ) : Bool :=
  (List.range duration).all fun i =>
    let slot_idx := start_slot + i
    !(decide (slot_idx ∈ instructor_schedule instructor day) ||
      (tt day slot_idx).type.isSome ||
      is_break_period meals (timeSlotAt slot_idx) (some (semBaseOf semester)))

/-- Commit one placed session to the grid: the first covered slot gets
the full record, the remaining covered slots the kind only. -/
def writeSession (tt : SectionTT) (day start_slot : ℕ) (k : Kind)
    (code name faculty room : String) : SectionTT :=
  fun d s =>
    if d = day ∧ start_slot ≤ s ∧ s < start_slot + kindLen k then
      if s = start_slot then ⟨some k, code, name, faculty, room⟩
      else ⟨some k, "", "", "", ""⟩
    else tt d s

/-- Add the covered slots to the instructor register. -/
def addInstr (sched : InstrSched) (instructor : String) (day start_slot duration : ℕ) :
    InstrSched :=
  fun f d =>
    if f = instructor ∧ d = day then
      sched f d ∪ (Finset.range duration).image (fun i => start_slot + i)
    else sched f d

/-- The paired-room display string of lab placement (lines 840-843):
"A,B" is shown as "A+B". -/
def display_room (room_id : String) : String :=
  if strHasChar room_id ',' then
    match strSplit room_id ',' with
    | r1 :: r2 :: _ => r1 ++ "+" ++ r2
    | _ => room_id
  else room_id

/-- One section of the run: its department, semester label and grid. -/
structure Sec where
  dept : String
  sem : String
  tt : SectionTT

/-- The global scheduler state: the section grids created so far, the
shared instructor register, and the shared room store (none when
rooms.csv was absent). -/
structure GState where
  secs : List Sec
  instr : InstrSched
  rooms : Option RoomMap

/-- One observable action of generate_all_timetables. Placements carry
the conditions the source checks on that path, in the state at that
moment; day and start_slot are the random draws. For tutorials the
spacing check is performed on the start_slot value left over from a
previous loop iteration (staleStart), matching the source, where the
fresh start_slot is only drawn after that check. The instructor string
is schedInstructor c, the raw Faculty cell. -/
inductive Step (enroll : EnrollData) (meals : MealSched) : GState → GState → Prop
  | newSection (s : GState) (dept sem : String) :
      Step enroll meals s ⟨s.secs ++ [⟨dept, sem, emptyTT⟩], s.instr, s.rooms⟩
  | placeLec (s : GState) (k : ℕ) (sec : Sec) (c : Course) (day start_slot : ℕ)
      (roomId : String) (rooms2 : Option RoomMap)
      (hk : s.secs[k]? = some sec)
      (hday : day < numDays)
      (hstart : start_slot + kindLen .LEC ≤ numSlots)
      (hspace : check_course_session_spacing s.instr sec.tt (schedInstructor c) c.code
        day start_slot = true)
      (hload : check_instructor_workload sec.tt day (schedInstructor c) c.code = true)
      (havail : lecSlotsAvailable s.instr sec.tt (schedInstructor c) meals sec.sem
        day start_slot = true)
      (hroom : assign_suitable_room "LEC" sec.dept sec.sem day start_slot (kindLen .LEC)
        s.rooms enroll sec.tt c.code [] = (some roomId, rooms2)) :
      Step enroll meals s
        ⟨s.secs.set k ⟨sec.dept, sec.sem,
            writeSession sec.tt day start_slot .LEC c.code c.name (schedInstructor c) roomId⟩,
          addInstr s.instr (schedInstructor c) day start_slot (kindLen .LEC),
          rooms2⟩
  | placeTut (s : GState) (k : ℕ) (sec : Sec) (c : Course) (day staleStart start_slot : ℕ)
      (roomId : String) (rooms2 : Option RoomMap)
      (hk : s.secs[k]? = some sec)
      (hday : day < numDays)
      (hspace : check_course_session_spacing s.instr sec.tt (schedInstructor c) c.code
        day staleStart = true)
      (hload : check_instructor_workload sec.tt day (schedInstructor c) c.code = true)
      (hstart : start_slot + kindLen .TUT ≤ numSlots)
      (havail : plainSlotsAvailable s.instr sec.tt (schedInstructor c) meals sec.sem
        day start_slot (kindLen .TUT) = true)
      (hroom : assign_suitable_room "TUT" sec.dept sec.sem day start_slot (kindLen .TUT)
        s.rooms enroll sec.tt c.code [] = (some roomId, rooms2)) :
      Step enroll meals s
        ⟨s.secs.set k ⟨sec.dept, sec.sem,
            writeSession sec.tt day start_slot .TUT c.code c.name (schedInstructor c) roomId⟩,
          addInstr s.instr (schedInstructor c) day start_slot (kindLen .TUT),
          rooms2⟩
  | placeLab (s : GState) (k : ℕ) (sec : Sec) (c : Course) (day start_slot : ℕ)
      (roomId : String) (rooms2 : Option RoomMap)
      (hk : s.secs[k]? = some sec)
      (hday : day < numDays)
      (hmem : start_slot ∈ find_available_slots sec.tt s.instr (schedInstructor c) day
        (kindLen .LAB) meals sec.sem sec.dept)
      (hroom : assign_suitable_room (determine_room_type c) sec.dept sec.sem day start_slot
        (kindLen .LAB) s.rooms enroll sec.tt c.code [] = (some roomId, rooms2)) :
      Step enroll meals s
        ⟨s.secs.set k ⟨sec.dept, sec.sem,
            writeSession sec.tt day start_slot .LAB c.code c.name (schedInstructor c)
              (display_room roomId)⟩,
          addInstr s.instr (schedInstructor c) day start_slot (kindLen .LAB),
          rooms2⟩
  | placeSS (s : GState) (k : ℕ) (sec : Sec) (c : Course) (day start_slot : ℕ)
      (roomId : String) (rooms2 : Option RoomMap)
      (hk : s.secs[k]? = some sec)
      (hday : day < numDays)
      (hstart : start_slot + kindLen .SS ≤ numSlots)
      (havail : plainSlotsAvailable s.instr sec.tt (schedInstructor c) meals sec.sem
        day start_slot (kindLen .SS) = true)
      (hroom : assign_suitable_room "SELF_STUDY" sec.dept sec.sem day start_slot
        (kindLen .SS) s.rooms enroll sec.tt c.code [] = (some roomId, rooms2)) :
      Step enroll meals s
        ⟨s.secs.set k ⟨sec.dept, sec.sem,
            writeSession sec.tt day start_slot .SS c.code c.name (schedInstructor c) roomId⟩,
          addInstr s.instr (schedInstructor c) day start_slot (kindLen .SS),
          rooms2⟩

/-- The state at the top of a run: no sections yet, an empty register,
and the freshly imported room store. -/
def initState (rooms : Option RoomMap) : GState :=
  ⟨[], fun _ _ => ∅, rooms⟩

/-- A state of some generation run with the given fixed inputs. -/
def Reachable (enroll : EnrollData) (meals : MealSched) (rooms : Option RoomMap)
    (s : GState) : Prop :=
  Relation.ReflTransGen (Step enroll meals) (initState rooms) s

/-! ### Counting sessions of an instructor in a grid -/

/-- A qualifying non-elective cell. -/
def nonElecQual (instructor : String) (r : SlotRec) : Bool :=
  workloadQualifies instructor r && !is_elective_course r.code

/-- A qualifying elective cell. -/
def elecQual (instructor : String) (r : SlotRec) : Bool :=
  workloadQualifies instructor r && is_elective_course r.code

/-- Number of non-elective LEC/LAB/TUT session cells of the instructor on
one day of one grid (each placed session contributes exactly its first
covered slot, the only cell with a nonempty code). -/
def nonElecCount (tt : SectionTT) (day : ℕ) (instructor : String) : ℕ :=
  (List.range numSlots).countP fun s => nonElecQual instructor (tt day s)

/-- The distinct elective codes among qualifying cells of the day. -/
def elecCodes (tt : SectionTT) (day : ℕ) (instructor : String) : Finset String :=
  (((List.range numSlots).filter fun s => elecQual instructor (tt day s)).map
    fun s => (tt day s).code).toFinset

/-- A LEC or TUT cell of the instructor with a nonempty code. -/
def lecTutQual (instructor : String) (r : SlotRec) : Bool :=
  r.faculty == instructor &&
    (match r.type with
     | some k => decide (k = .LEC ∨ k = .TUT)
     | none => false) &&
    r.code != ""

/-- Non-elective LEC/TUT session cells of the instructor on the day. -/
def lecTutNonElec (tt : SectionTT) (day : ℕ) (instructor : String) : ℕ :=
  (List.range numSlots).countP fun s =>
    lecTutQual instructor (tt day s) && !is_elective_course (tt day s).code

/-- Distinct elective codes among LEC/TUT cells of the day. -/
def lecTutElecCodes (tt : SectionTT) (day : ℕ) (instructor : String) : Finset String :=
  (((List.range numSlots).filter fun s =>
      lecTutQual instructor (tt day s) && is_elective_course (tt day s).code).map
    fun s => (tt day s).code).toFinset

/-- The collapsed LEC/TUT load: non-electives one each, electives one per
distinct code. -/
def lecTutLoad (tt : SectionTT) (day : ℕ) (instructor : String) : ℕ :=
  lecTutNonElec tt day instructor + (lecTutElecCodes tt day instructor).card

/-- The whole-run non-elective LEC/LAB/TUT count of an instructor on one
day, summed over every section of every department (claim C1 counts
sessions globally; non-elective sessions never collapse). -/
def globalNonElec (s : GState) (day : ℕ) (instructor : String) : ℕ :=
  (s.secs.map fun sec => nonElecCount sec.tt day instructor).sum

/-- The whole-run non-elective LEC/TUT count (labs excluded). -/
def globalLecTutNonElec (s : GState) (day : ℕ) (instructor : String) : ℕ :=
  (s.secs.map fun sec => lecTutNonElec sec.tt day instructor).sum

/-! ### Decomposing the workload counting loop -/

theorem card_insert_sdiff {α : Type} [DecidableEq α] (S T : Finset α) (a : α)
    (h : a ∉ T) : (insert a S \ T).card = (S \ insert a T).card + 1 := by
  rw [Finset.insert_sdiff_of_not_mem _ h, Finset.sdiff_insert]
  by_cases ha : a ∈ S \ T
  · rw [Finset.insert_eq_self.mpr ha, Finset.card_erase_add_one ha]
  · rw [Finset.card_insert_of_not_mem ha, Finset.erase_eq_of_not_mem ha]

/-- The elective codes of the qualifying cells among a slot list. -/
def elecCodesOf (tt : SectionTT) (day : ℕ) (instructor : String) (l : List ℕ) :
    Finset String :=
  ((l.filter fun s => elecQual instructor (tt day s)).map fun s => (tt day s).code).toFinset

theorem contains_false_not_mem {l : List String} {a : String}
    (h : l.contains a = false) : a ∉ l := by
  intro hc
  have ht : l.contains a = true := List.elem_iff.mpr hc
  rw [ht] at h
  cases h

theorem contains_true_mem {l : List String} {a : String}
    (h : l.contains a = true) : a ∈ l :=
  List.elem_iff.mp h

theorem workloadFold_go (tt : SectionTT) (day : ℕ) (instructor : String) :
    ∀ (l : List ℕ) (c : ℕ) (seen : List String),
    (l.foldl (fun acc slot => workloadStep instructor (tt day slot) acc) (c, seen)).1
        = c + l.countP (fun s => nonElecQual instructor (tt day s))
          + (elecCodesOf tt day instructor l \ seen.toFinset).card
    ∧ ((l.foldl (fun acc slot => workloadStep instructor (tt day slot) acc) (c, seen)).2).toFinset
        = seen.toFinset ∪ elecCodesOf tt day instructor l := by
  intro l
  induction l with
  | nil =>
      intro c seen
      simp [elecCodesOf]
  | cons a l ih =>
      intro c seen
      rw [List.foldl_cons]
      cases hq : workloadQualifies instructor (tt day a) with
      | false =>
          have hne : nonElecQual instructor (tt day a) = false := by
            simp [nonElecQual, hq]
          have he : elecQual instructor (tt day a) = false := by
            simp [elecQual, hq]
          have hstep : workloadStep instructor (tt day a) (c, seen) = (c, seen) := by
            simp [workloadStep, hq]
          have hE : elecCodesOf tt day instructor (a :: l) = elecCodesOf tt day instructor l := by
            simp [elecCodesOf, List.filter_cons, he]
          rw [hstep, List.countP_cons, hne, hE]
          simpa using ih c seen
      | true =>
          cases helec : is_elective_course (tt day a).code with
          | false =>
              have hne : nonElecQual instructor (tt day a) = true := by
                simp [nonElecQual, hq, helec]
              have he : elecQual instructor (tt day a) = false := by
                simp [elecQual, hq, helec]
              have hstep : workloadStep instructor (tt day a) (c, seen) = (c + 1, seen) := by
                simp [workloadStep, hq, helec]
              have hE : elecCodesOf tt day instructor (a :: l)
                  = elecCodesOf tt day instructor l := by
                simp [elecCodesOf, List.filter_cons, he]
              rw [hstep, List.countP_cons, hne, hE]
              have h2 := ih (c + 1) seen
              constructor
              · rw [h2.1]; simp; omega
              · exact h2.2
          | true =>
              have hne : nonElecQual instructor (tt day a) = false := by
                simp [nonElecQual, hq, helec]
              have he : elecQual instructor (tt day a) = true := by
                simp [elecQual, hq, helec]
              have hE : elecCodesOf tt day instructor (a :: l)
                  = insert (tt day a).code (elecCodesOf tt day instructor l) := by
                simp [elecCodesOf, List.filter_cons, he]
              cases hseen : seen.contains (tt day a).code with
              | false =>
                  have hmem : (tt day a).code ∉ seen.toFinset := by
                    simp only [List.mem_toFinset]
                    exact contains_false_not_mem hseen
                  have hstep : workloadStep instructor (tt day a) (c, seen)
                      = (c + 1, (tt day a).code :: seen) := by
                    simp [workloadStep, hq, helec, hseen]
                    exact contains_false_not_mem hseen
                  rw [hstep, List.countP_cons, hne, hE]
                  have h2 := ih (c + 1) ((tt day a).code :: seen)
                  constructor
                  · rw [h2.1, card_insert_sdiff _ _ _ hmem]
                    simp only [List.toFinset_cons]
                    simp
                    omega
                  · rw [h2.2]
                    simp only [List.toFinset_cons]
                    rw [Finset.insert_union, Finset.union_insert]
              | true =>
                  have hmem : (tt day a).code ∈ seen.toFinset := by
                    simp only [List.mem_toFinset]
                    exact contains_true_mem hseen
                  have hstep : workloadStep instructor (tt day a) (c, seen) = (c, seen) := by
                    simp [workloadStep, hq, helec, hseen]
                    exact contains_true_mem hseen
                  rw [hstep, List.countP_cons, hne, hE]
                  have h2 := ih c seen
                  constructor
                  · rw [h2.1, Finset.insert_sdiff_of_mem _ hmem]
                    simp
                  · rw [h2.2, Finset.union_insert, Finset.insert_eq_self.mpr]
                    exact Finset.mem_union_left _ hmem

theorem sessions_count_eq (tt : SectionTT) (day : ℕ) (instructor : String) :
    sessions_count tt day instructor
      = nonElecCount tt day instructor + (elecCodes tt day instructor).card := by
  have h := (workloadFold_go tt day instructor (List.range numSlots) 0 []).1
  simp only [sessions_count, workloadFold, nonElecCount, elecCodes]
  rw [h]
  simp [elecCodesOf]

/-! ### Generic update lemmas for the counts -/

theorem countP_update {l : List ℕ} {a : ℕ} (p p' : ℕ → Bool) (hnd : l.Nodup) (ha : a ∈ l)
    (hpa : p a = false) (hagree : ∀ s, s ≠ a → p' s = p s) :
    l.countP p' = l.countP p + (if p' a = true then 1 else 0) := by
  induction l with
  | nil => cases ha
  | cons b t ih =>
      rw [List.countP_cons, List.countP_cons]
      have hbt : b ∉ t := (List.nodup_cons.mp hnd).1
      rcases List.mem_cons.mp ha with hba | hat
      · subst hba
        have hteq : t.countP p' = t.countP p := by
          apply List.countP_congr
          intro s hs
          rw [hagree s (fun h => hbt (h ▸ hs))]
        rw [hteq, hpa]
        simp
      · have hba : b ≠ a := fun h => hbt (h ▸ hat)
        rw [hagree b hba, ih (List.nodup_cons.mp hnd).2 hat]
        ring

theorem codesFinset_update {l : List ℕ} {a : ℕ} (p p' : ℕ → Bool) (f f' : ℕ → String)
    (ha : a ∈ l) (hpa : p a = false)
    (hagreeP : ∀ s, s ≠ a → p' s = p s)
    (hagreeF : ∀ s, s ≠ a → p s = true → f' s = f s) :
    ((l.filter p').map f').toFinset =
      (if p' a = true then {f' a} else ∅) ∪ ((l.filter p).map f).toFinset := by
  ext x
  simp only [List.mem_toFinset, List.mem_map, List.mem_filter, Finset.mem_union]
  constructor
  · rintro ⟨s, ⟨hs, hps⟩, hfs⟩
    by_cases hsa : s = a
    · subst hsa
      left
      rw [if_pos hps]
      simp [hfs]
    · right
      have hp : p s = true := (hagreeP s hsa) ▸ hps
      refine ⟨s, ⟨hs, hp⟩, ?_⟩
      rw [← hagreeF s hsa hp]
      exact hfs
  · rintro (hx | ⟨s, ⟨hs, hps⟩, hfs⟩)
    · by_cases hp'a : p' a = true
      · rw [if_pos hp'a] at hx
        simp only [Finset.mem_singleton] at hx
        exact ⟨a, ⟨ha, hp'a⟩, hx.symm⟩
      · rw [if_neg hp'a] at hx
        cases hx
    · have hsa : s ≠ a := fun h => by rw [h, hpa] at hps; cases hps
      refine ⟨s, ⟨hs, (hagreeP s hsa).symm ▸ hps⟩, ?_⟩
      rw [hagreeF s hsa hps]
      exact hfs

theorem card_codes_update {l : List ℕ} {a : ℕ} (p p' : ℕ → Bool) (f f' : ℕ → String)
    (ha : a ∈ l) (hpa : p a = false)
    (hagreeP : ∀ s, s ≠ a → p' s = p s)
    (hagreeF : ∀ s, s ≠ a → p s = true → f' s = f s) :
    ((l.filter p').map f').toFinset.card ≤ ((l.filter p).map f).toFinset.card + 1 ∧
    ((l.filter p).map f).toFinset.card ≤ ((l.filter p').map f').toFinset.card := by
  rw [codesFinset_update p p' f f' ha hpa hagreeP hagreeF]
  constructor
  · calc ((if p' a = true then {f' a} else ∅) ∪ ((l.filter p).map f).toFinset).card
        ≤ (if p' a = true then ({f' a} : Finset String) else ∅).card
          + ((l.filter p).map f).toFinset.card := Finset.card_union_le _ _
      _ ≤ ((l.filter p).map f).toFinset.card + 1 := by
          by_cases hp : p' a = true
          · rw [if_pos hp]; simp; omega
          · rw [if_neg hp]; simp
  · exact Finset.card_le_card (Finset.subset_union_right)

/-! ### Pointwise behaviour of writeSession and the availability checks -/

theorem kindLen_pos (k : Kind) : 0 < kindLen k := by
  cases k <;> decide

theorem writeSession_other_day (tt : SectionTT) (day start_slot : ℕ) (k : Kind)
    (code name faculty room : String) (d s : ℕ) (hd : d ≠ day) :
    writeSession tt day start_slot k code name faculty room d s = tt d s := by
  simp [writeSession, hd]

theorem writeSession_out (tt : SectionTT) (day start_slot : ℕ) (k : Kind)
    (code name faculty room : String) (s : ℕ)
    (hs : ¬(start_slot ≤ s ∧ s < start_slot + kindLen k)) :
    writeSession tt day start_slot k code name faculty room day s = tt day s := by
  simp only [writeSession]
  rw [if_neg]
  intro h
  exact hs ⟨h.2.1, h.2.2⟩

theorem writeSession_start (tt : SectionTT) (day start_slot : ℕ) (k : Kind)
    (code name faculty room : String) :
    writeSession tt day start_slot k code name faculty room day start_slot
      = ⟨some k, code, name, faculty, room⟩ := by
  have hlt : start_slot < start_slot + kindLen k := Nat.lt_add_of_pos_right (kindLen_pos k)
  simp [writeSession, hlt]

theorem writeSession_tail (tt : SectionTT) (day start_slot : ℕ) (k : Kind)
    (code name faculty room : String) (s : ℕ)
    (h1 : start_slot ≤ s) (h2 : s < start_slot + kindLen k) (h3 : s ≠ start_slot) :
    writeSession tt day start_slot k code name faculty room day s
      = ⟨some k, "", "", "", ""⟩ := by
  simp [writeSession, h1, h2, h3]

theorem isSome_false_eq_none {α : Type} {o : Option α} (h : o.isSome = false) : o = none := by
  cases o
  · rfl
  · cases h

theorem plainAvail_spec {sched : InstrSched} {tt : SectionTT} {i : String}
    {meals : MealSched} {sem : String} {day start_slot duration : ℕ}
    (h : plainSlotsAvailable sched tt i meals sem day start_slot duration = true) :
    ∀ j, j < duration → (start_slot + j) ∉ sched i day ∧
      (tt day (start_slot + j)).type = none ∧
      is_break_period meals (timeSlotAt (start_slot + j)) (some (semBaseOf sem)) = false := by
  intro j hj
  have hx := List.all_eq_true.mp h j (List.mem_range.mpr hj)
  simp only [Bool.not_eq_true', Bool.or_eq_false_iff, decide_eq_false_iff_not] at hx
  exact ⟨hx.1.1, isSome_false_eq_none hx.1.2, hx.2⟩

theorem lecAvail_spec {sched : InstrSched} {tt : SectionTT} {i : String}
    {meals : MealSched} {sem : String} {day start_slot : ℕ}
    (h : lecSlotsAvailable sched tt i meals sem day start_slot = true) :
    ∀ j, j < kindLen .LEC → (start_slot + j) ∉ sched i day ∧
      (tt day (start_slot + j)).type = none ∧
      is_break_period meals (timeSlotAt (start_slot + j)) (some (semBaseOf sem)) = false := by
  intro j hj
  have hx := List.all_eq_true.mp h j (List.mem_range.mpr hj)
  simp only [Bool.and_eq_true] at hx
  have hx1 := hx.1.1
  simp only [Bool.not_eq_true', Bool.or_eq_false_iff, decide_eq_false_iff_not] at hx1
  exact ⟨hx1.1.1, isSome_false_eq_none hx1.1.2, hx1.2⟩

theorem find_available_spec {tt : SectionTT} {sched : InstrSched} {i : String}
    {day duration : ℕ} {meals : MealSched} {sem dept : String} {start_slot : ℕ}
    (hdur : duration ≤ numSlots)
    (h : start_slot ∈ find_available_slots tt sched i day duration meals sem dept) :
    start_slot + duration ≤ numSlots ∧
    ∀ j, j < duration → (start_slot + j) ∉ sched i day ∧
      (tt day (start_slot + j)).type = none ∧
      is_break_period meals (timeSlotAt (start_slot + j)) (some (semBaseOf sem)) = false := by
  obtain ⟨hmem, hall⟩ := List.mem_filter.mp h
  have hstart : start_slot < numSlots - duration + 1 := List.mem_range.mp hmem
  refine ⟨by omega, ?_⟩
  intro j hj
  have hx := List.all_eq_true.mp hall j (List.mem_range.mpr hj)
  simp only [is_slot_reserved, Bool.or_false, Bool.not_eq_true', Bool.or_eq_false_iff,
    decide_eq_false_iff_not] at hx
  exact ⟨hx.1.1, isSome_false_eq_none hx.1.2, hx.2⟩

/-! ### Induction over runs -/

theorem lookup_set {α : Type} {l : List α} {k j : ℕ} {a b : α}
    (h : (l.set k a)[j]? = some b) :
    (k = j ∧ b = a) ∨ (k ≠ j ∧ l[j]? = some b) := by
  rw [List.getElem?_set] at h
  by_cases hkj : k = j
  · rw [if_pos hkj] at h
    by_cases hk : k < l.length
    · rw [if_pos hk] at h
      exact Or.inl ⟨hkj, (Option.some_inj.mp h).symm⟩
    · rw [if_neg hk] at h; cases h
  · rw [if_neg hkj] at h
    exact Or.inr ⟨hkj, h⟩

theorem lookup_append {α : Type} {l : List α} {x b : α} {j : ℕ}
    (h : (l ++ [x])[j]? = some b) : l[j]? = some b ∨ b = x := by
  rw [List.getElem?_append] at h
  by_cases hj : j < l.length
  · rw [if_pos hj] at h; exact Or.inl h
  · rw [if_neg hj] at h
    rcases hj2 : j - l.length with _ | n
    · rw [hj2] at h; simp at h; exact Or.inr h.symm
    · rw [hj2] at h; simp at h

theorem reachable_invariant {enroll : EnrollData} {meals : MealSched}
    {rooms : Option RoomMap} (P : GState → Prop)
    (hinit : P (initState rooms))
    (hstep : ∀ s s2, Step enroll meals s s2 → P s → P s2) :
    ∀ s, Reachable enroll meals rooms s → P s := by
  intro s h
  induction h with
  | refl => exact hinit
  | tail _ hbc ih => exact hstep _ _ hbc ih

/-- Case summary of one step: either a fresh section is appended, or one
session of some kind is committed into one section, at a position that
was free, non-break and instructor-free over its whole window, after the
checks the source performs for that kind. -/
theorem step_cases {enroll : EnrollData} {meals : MealSched} {s s2 : GState}
    (h : Step enroll meals s s2) :
    (∃ dept sem, s2 = ⟨s.secs ++ [⟨dept, sem, emptyTT⟩], s.instr, s.rooms⟩) ∨
    (∃ (k : ℕ) (sec : Sec) (kd : Kind) (c : Course) (day start_slot : ℕ) (room : String)
        (rooms2 : Option RoomMap),
      s.secs[k]? = some sec ∧
      s2 = ⟨s.secs.set k ⟨sec.dept, sec.sem,
          writeSession sec.tt day start_slot kd c.code c.name (schedInstructor c) room⟩,
        addInstr s.instr (schedInstructor c) day start_slot (kindLen kd), rooms2⟩ ∧
      day < numDays ∧ start_slot + kindLen kd ≤ numSlots ∧
      (∀ j, j < kindLen kd → (start_slot + j) ∉ s.instr (schedInstructor c) day ∧
        (sec.tt day (start_slot + j)).type = none ∧
        is_break_period meals (timeSlotAt (start_slot + j))
          (some (semBaseOf sec.sem)) = false) ∧
      ((kd = .LEC ∨ kd = .TUT) →
        check_instructor_workload sec.tt day (schedInstructor c) c.code = true) ∧
      (kd = .LEC →
        check_course_session_spacing s.instr sec.tt (schedInstructor c) c.code
          day start_slot = true)) := by
  cases h with
  | newSection dept sem => exact Or.inl ⟨dept, sem, rfl⟩
  | placeLec k sec c day start_slot roomId rooms2 hk hday hstart hspace hload havail hroom =>
      refine Or.inr ⟨k, sec, .LEC, c, day, start_slot, roomId, rooms2, hk, rfl, hday, hstart,
        ?_, fun _ => hload, fun _ => hspace⟩
      intro j hj
      obtain ⟨h1, h2, h3⟩ := lecAvail_spec havail j hj
      exact ⟨h1, h2, h3⟩
  | placeTut k sec c day staleStart start_slot roomId rooms2 hk hday hspace hload hstart
      havail hroom =>
      refine Or.inr ⟨k, sec, .TUT, c, day, start_slot, roomId, rooms2, hk, rfl, hday, hstart,
        ?_, fun _ => hload, ?_⟩
      · intro j hj
        obtain ⟨h1, h2, h3⟩ := plainAvail_spec havail j hj
        exact ⟨h1, h2, h3⟩
      · intro hkd; cases hkd
  | placeLab k sec c day start_slot roomId rooms2 hk hday hmem hroom =>
      obtain ⟨hb, hall⟩ := find_available_spec (by decide) hmem
      refine Or.inr ⟨k, sec, .LAB, c, day, start_slot, display_room roomId, rooms2, hk, rfl,
        hday, hb, ?_, ?_, ?_⟩
      · intro j hj
        obtain ⟨h1, h2, h3⟩ := hall j hj
        exact ⟨h1, h2, h3⟩
      · intro hkd; cases hkd with
        | inl h => cases h
        | inr h => cases h
      · intro hkd; cases hkd
  | placeSS k sec c day start_slot roomId rooms2 hk hday hstart havail hroom =>
      refine Or.inr ⟨k, sec, .SS, c, day, start_slot, roomId, rooms2, hk, rfl, hday, hstart,
        ?_, ?_, ?_⟩
      · intro j hj
        obtain ⟨h1, h2, h3⟩ := plainAvail_spec havail j hj
        exact ⟨h1, h2, h3⟩
      · intro hkd; cases hkd with
        | inl h => cases h
        | inr h => cases h
      · intro hkd; cases hkd

/-- Typed cells are never overwritten by a commit into the same grid. -/
theorem writeSession_frame (tt : SectionTT) (day start_slot : ℕ) (k : Kind)
    (code name faculty room : String)
    (hfree : ∀ j, j < kindLen k → (tt day (start_slot + j)).type = none) (d s : ℕ)
    (hts : ((tt d s).type).isSome = true) :
    writeSession tt day start_slot k code name faculty room d s = tt d s := by
  by_cases hd : d = day
  · subst hd
    apply writeSession_out
    rintro ⟨h1, h2⟩
    have hn := hfree (s - start_slot) (by omega)
    rw [show start_slot + (s - start_slot) = s by omega] at hn
    rw [hn] at hts
    cases hts
  · exact writeSession_other_day _ _ _ _ _ _ _ _ _ _ hd

/-! ### Grid-shape invariants -/

/-- Every typed cell of every section grid sits at a slot index below 19
and is not a break slot for that section's semester. -/
def typedCellsOk (meals : MealSched) (s : GState) : Prop :=
  ∀ (j : ℕ) (sec : Sec), s.secs[j]? = some sec → ∀ day slot,
    ((sec.tt day slot).type).isSome = true →
    slot < numSlots ∧
      is_break_period meals (timeSlotAt slot) (some (semBaseOf sec.sem)) = false

/-- Every session-start cell (typed, nonempty code) has its whole window
typed. -/
def windowsTyped (s : GState) : Prop :=
  ∀ (j : ℕ) (sec : Sec), s.secs[j]? = some sec → ∀ day a kd,
    (sec.tt day a).type = some kd → (sec.tt day a).code ≠ "" →
    ∀ i, i < kindLen kd → ((sec.tt day (a + i)).type).isSome = true

theorem grid_invariant {enroll : EnrollData} {meals : MealSched} {rooms : Option RoomMap} :
    ∀ s, Reachable enroll meals rooms s → typedCellsOk meals s ∧ windowsTyped s := by
  refine reachable_invariant (fun st => typedCellsOk meals st ∧ windowsTyped st) ?_ ?_
  · constructor
    · intro j sec hj
      simp [initState] at hj
    · intro j sec hj
      simp [initState] at hj
  · intro s s2 hstep ih
    unfold typedCellsOk windowsTyped
    rcases step_cases hstep with ⟨dept, sem, rfl⟩ |
      ⟨k, sec, kd, c, day, start_slot, room, rooms2, hk, rfl, hday, hbound, hwin, hload2, hspace2⟩
    · constructor
      · intro j secj hj day slot hts
        rcases lookup_append hj with hold | rfl
        · exact ih.1 j secj hold day slot hts
        · cases hts
      · intro j secj hj day a kd hta hca i hi
        rcases lookup_append hj with hold | rfl
        · exact ih.2 j secj hold day a kd hta hca i hi
        · cases hta
    · have hfree : ∀ j, j < kindLen kd → (sec.tt day (start_slot + j)).type = none :=
        fun j hj => (hwin j hj).2.1
      constructor
      · intro j secj hj d slot hts
        rcases lookup_set hj with ⟨hkj, rfl⟩ | ⟨hkj, hold⟩
        · dsimp only at hts ⊢
          by_cases hin : d = day ∧ start_slot ≤ slot ∧ slot < start_slot + kindLen kd
          · obtain ⟨hd, hs1, hs2⟩ := hin
            refine ⟨by omega, ?_⟩
            have hb := (hwin (slot - start_slot) (by omega)).2.2
            rw [show start_slot + (slot - start_slot) = slot by omega] at hb
            exact hb
          · have hcell : writeSession sec.tt day start_slot kd c.code c.name
                (schedInstructor c) room d slot = sec.tt d slot := by
              by_cases hd : d = day
              · subst hd
                exact writeSession_out _ _ _ _ _ _ _ _ _ (fun hc => hin ⟨rfl, hc.1, hc.2⟩)
              · exact writeSession_other_day _ _ _ _ _ _ _ _ _ _ hd
            rw [hcell] at hts
            exact ih.1 k sec hk d slot hts
        · exact ih.1 j secj hold d slot hts
      · intro j secj hj d a kd2 hta hca i hi
        rcases lookup_set hj with ⟨hkj, rfl⟩ | ⟨hkj, hold⟩
        · dsimp only at hta hca ⊢
          by_cases hin : d = day ∧ start_slot ≤ a ∧ a < start_slot + kindLen kd
          · obtain ⟨hd, hs1, hs2⟩ := hin
            subst hd
            by_cases has : a = start_slot
            · subst has
              rw [writeSession_start] at hta
              have hkd : kd = kd2 := Option.some_inj.mp hta
              subst hkd
              by_cases hi0 : i = 0
              · subst hi0
                rw [Nat.add_zero, writeSession_start]
                rfl
              · rw [writeSession_tail _ _ _ _ _ _ _ _ _ (by omega) (by omega) (by omega)]
                rfl
            · rw [writeSession_tail _ _ _ _ _ _ _ _ _ hs1 hs2 has] at hca
              exact absurd rfl hca
          · have hcell : writeSession sec.tt day start_slot kd c.code c.name
                (schedInstructor c) room d a = sec.tt d a := by
              by_cases hd : d = day
              · subst hd
                exact writeSession_out _ _ _ _ _ _ _ _ _ (fun hc => hin ⟨rfl, hc.1, hc.2⟩)
              · exact writeSession_other_day _ _ _ _ _ _ _ _ _ _ hd
            rw [hcell] at hta hca
            have hold2 := ih.2 k sec hk d a kd2 hta hca i hi
            rw [writeSession_frame _ _ _ _ _ _ _ _ hfree _ _ hold2]
            exact hold2
        · exact ih.2 j secj hold d a kd2 hta hca i hi

/-- C6: for every placed session of any kind in any section of any
generation run, no covered slot [start, start + kindLen kind) is a break
slot for that section's semester, where break slots are given by
is_break_period: the slot starts inside 10:30-11:00 (minutes 630-660) or
inside the meal window stored for the first digit of the semester label. -/
theorem C6_no_break_overlap {enroll : EnrollData} {meals : MealSched}
    {rooms : Option RoomMap} {s : GState} (hreach : Reachable enroll meals rooms s) :
    ∀ (j : ℕ) (sec : Sec), s.secs[j]? = some sec → ∀ day a kd,
      (sec.tt day a).type = some kd → (sec.tt day a).code ≠ "" →
      ∀ i, i < kindLen kd →
        is_break_period meals (timeSlotAt (a + i)) (some (semBaseOf sec.sem)) = false := by
  intro j sec hj day a kd hta hca i hi
  obtain ⟨hcells, hwin⟩ := grid_invariant s hreach
  have hty := hwin j sec hj day a kd hta hca i hi
  exact (hcells j sec hj day (a + i) hty).2

/-! ### The workload bounds -/

theorem lecTutQual_implies {i : String} {r : SlotRec} (h : lecTutQual i r = true) :
    workloadQualifies i r = true := by
  simp only [lecTutQual, Bool.and_eq_true] at h
  simp only [workloadQualifies, Bool.and_eq_true]
  refine ⟨⟨h.1.1, ?_⟩, h.2⟩
  rcases hr : r.type with _ | k
  · rw [hr] at h
    exact absurd h.1.2 (by simp)
  · rw [hr] at h
    have hk := of_decide_eq_true h.1.2
    rcases hk with h1 | h1 <;> simp [h1]

theorem lecTutQual_none (i : String) (r : SlotRec) (h : r.type = none) :
    lecTutQual i r = false := by
  simp [lecTutQual, h]

theorem lecTutQual_emptyCode (i : String) (r : SlotRec) (h : r.code = "") :
    lecTutQual i r = false := by
  simp [lecTutQual, h]

theorem workloadQualifies_none (i : String) (r : SlotRec) (h : r.type = none) :
    workloadQualifies i r = false := by
  simp [workloadQualifies, h]

theorem lecTutNonElec_le (tt : SectionTT) (day : ℕ) (i : String) :
    lecTutNonElec tt day i ≤ nonElecCount tt day i := by
  apply List.countP_mono_left
  intro s _ h
  simp only [Bool.and_eq_true] at h
  simp only [nonElecQual, Bool.and_eq_true]
  exact ⟨lecTutQual_implies h.1, h.2⟩

theorem lecTutElecCodes_subset (tt : SectionTT) (day : ℕ) (i : String) :
    lecTutElecCodes tt day i ⊆ elecCodes tt day i := by
  intro x hx
  simp only [lecTutElecCodes, elecCodes, List.mem_toFinset, List.mem_map,
    List.mem_filter] at hx ⊢
  obtain ⟨s, ⟨hs, hq⟩, hfs⟩ := hx
  simp only [Bool.and_eq_true] at hq
  refine ⟨s, ⟨hs, ?_⟩, hfs⟩
  simp only [elecQual, Bool.and_eq_true]
  exact ⟨lecTutQual_implies hq.1, hq.2⟩

theorem lecTutLoad_le_sessions (tt : SectionTT) (day : ℕ) (i : String) :
    lecTutLoad tt day i ≤ sessions_count tt day i := by
  rw [sessions_count_eq, lecTutLoad]
  exact Nat.add_le_add (lecTutNonElec_le tt day i)
    (Finset.card_le_card (lecTutElecCodes_subset tt day i))

theorem lecTutNonElec_empty (day : ℕ) (i : String) : lecTutNonElec emptyTT day i = 0 := by
  unfold lecTutNonElec
  rw [List.countP_eq_zero]
  intro s _
  simp [emptyTT, emptyRec, lecTutQual]

theorem lecTutElecCodes_empty (day : ℕ) (i : String) :
    lecTutElecCodes emptyTT day i = ∅ := by
  unfold lecTutElecCodes
  have : (List.range numSlots).filter
      (fun s => lecTutQual i (emptyTT day s) && is_elective_course (emptyTT day s).code)
      = [] := by
    rw [List.filter_eq_nil_iff]
    intro s _
    simp [emptyTT, emptyRec, lecTutQual]
  rw [this]
  rfl

/-- Effect of one session commit on the same-day LEC/TUT counts: only the
first covered slot can contribute, with at most one unit or one code. -/
theorem lecTutCounts_write (tt : SectionTT) (day start_slot : ℕ) (kd : Kind)
    (code name fac room : String) (i : String)
    (hfree : ∀ j, j < kindLen kd → (tt day (start_slot + j)).type = none)
    (hstart : start_slot < numSlots) :
    lecTutNonElec (writeSession tt day start_slot kd code name fac room) day i
      = lecTutNonElec tt day i
        + (if (lecTutQual i ⟨some kd, code, name, fac, room⟩ &&
              !is_elective_course code) = true then 1 else 0) ∧
    lecTutElecCodes (writeSession tt day start_slot kd code name fac room) day i
      = (if (lecTutQual i ⟨some kd, code, name, fac, room⟩ &&
            is_elective_course code) = true then {code} else ∅)
        ∪ lecTutElecCodes tt day i := by
  have h0 : (tt day start_slot).type = none := by
    have := hfree 0 (kindLen_pos kd)
    rwa [Nat.add_zero] at this
  have hcell : writeSession tt day start_slot kd code name fac room day start_slot
      = ⟨some kd, code, name, fac, room⟩ := writeSession_start tt day start_slot kd
        code name fac room
  have hcellEq : ∀ s, s ≠ start_slot → lecTutQual i (tt day s) = true →
      writeSession tt day start_slot kd code name fac room day s = tt day s := by
    intro s hs hq
    apply writeSession_out
    rintro ⟨h1, h2⟩
    have hn := hfree (s - start_slot) (by omega)
    rw [show start_slot + (s - start_slot) = s by omega] at hn
    rw [lecTutQual_none i _ hn] at hq
    cases hq
  have hagreeQ : ∀ s, s ≠ start_slot →
      lecTutQual i (writeSession tt day start_slot kd code name fac room day s)
        = lecTutQual i (tt day s) := by
    intro s hs
    by_cases hwin2 : start_slot ≤ s ∧ s < start_slot + kindLen kd
    · rw [writeSession_tail tt day start_slot kd code name fac room s hwin2.1 hwin2.2 hs]
      have hn := hfree (s - start_slot) (by omega)
      rw [show start_slot + (s - start_slot) = s by omega] at hn
      rw [lecTutQual_emptyCode i _ rfl, lecTutQual_none i _ hn]
    · rw [writeSession_out tt day start_slot kd code name fac room s hwin2]
  constructor
  · unfold lecTutNonElec
    have hupd := countP_update
      (fun s => lecTutQual i (tt day s) && !is_elective_course (tt day s).code)
      (fun s => lecTutQual i (writeSession tt day start_slot kd code name fac room day s)
        && !is_elective_course
          (writeSession tt day start_slot kd code name fac room day s).code)
      (List.nodup_range numSlots) (List.mem_range.mpr hstart)
      (by dsimp only; rw [lecTutQual_none i _ h0]; rfl)
      (by
        intro s hs
        dsimp only
        by_cases hq : lecTutQual i (tt day s) = true
        · rw [hagreeQ s hs, hcellEq s hs hq]
        · have hq2 : lecTutQual i (tt day s) = false := by
            cases hb : lecTutQual i (tt day s)
            · rfl
            · exact absurd hb hq
          rw [hagreeQ s hs, hq2, Bool.false_and, Bool.false_and])
    rw [hupd]
    dsimp only
    rw [hcell]
  · unfold lecTutElecCodes
    have hupd := codesFinset_update
      (fun s => lecTutQual i (tt day s) && is_elective_course (tt day s).code)
      (fun s => lecTutQual i (writeSession tt day start_slot kd code name fac room day s)
        && is_elective_course
          (writeSession tt day start_slot kd code name fac room day s).code)
      (fun s => (tt day s).code)
      (fun s => (writeSession tt day start_slot kd code name fac room day s).code)
      (List.mem_range.mpr hstart)
      (by dsimp only; rw [lecTutQual_none i _ h0]; rfl)
      (by
        intro s hs
        dsimp only
        by_cases hq : lecTutQual i (tt day s) = true
        · rw [hagreeQ s hs, hcellEq s hs hq]
        · have hq2 : lecTutQual i (tt day s) = false := by
            cases hb : lecTutQual i (tt day s)
            · rfl
            · exact absurd hb hq
          rw [hagreeQ s hs, hq2, Bool.false_and, Bool.false_and])
      (by
        intro s hs hp
        dsimp only
        rw [Bool.and_eq_true] at hp
        rw [hcellEq s hs hp.1])
    rw [hupd]
    dsimp only
    rw [hcell]

/-- The counts of other days are untouched by a commit. -/
theorem lecTutCounts_other_day (tt : SectionTT) (day start_slot : ℕ) (kd : Kind)
    (code name fac room : String) (i : String) (d : ℕ) (hd : d ≠ day) :
    lecTutNonElec (writeSession tt day start_slot kd code name fac room) d i
      = lecTutNonElec tt d i ∧
    lecTutElecCodes (writeSession tt day start_slot kd code name fac room) d i
      = lecTutElecCodes tt d i := by
  have hcell : ∀ s, writeSession tt day start_slot kd code name fac room d s = tt d s :=
    fun s => writeSession_other_day tt day start_slot kd code name fac room d s hd
  constructor
  · unfold lecTutNonElec
    apply List.countP_congr
    intro s _
    rw [hcell s]
  · unfold lecTutElecCodes
    have hfilter : (List.range numSlots).filter
        (fun s => lecTutQual i (writeSession tt day start_slot kd code name fac room d s)
          && is_elective_course
            (writeSession tt day start_slot kd code name fac room d s).code)
        = (List.range numSlots).filter
          (fun s => lecTutQual i (tt d s) && is_elective_course (tt d s).code) := by
      apply List.filter_congr
      intro s _
      rw [hcell s]
    rw [hfilter]
    congr 1
    apply List.map_congr_left
    intro s _
    rw [hcell s]

/-- What passing check_instructor_workload guarantees about the count. -/
theorem check_workload_bound {tt : SectionTT} {day : ℕ} {i code : String}
    (h : check_instructor_workload tt day i code = true) :
    sessions_count tt day i < 3 ∧
      (is_elective_course code = false → sessions_count tt day i < 2) := by
  unfold check_instructor_workload at h
  by_cases hc : (code != "" && is_elective_course code) = true
  · rw [if_pos hc] at h
    constructor
    · by_cases hg : (!(find_group_slots tt day (get_elective_group code)).isEmpty) = true
      · rw [if_pos hg] at h
        exact of_decide_eq_true h
      · rw [if_neg hg] at h
        have := of_decide_eq_true h
        omega
    · intro hel
      rw [Bool.and_eq_true] at hc
      rw [hel] at hc
      cases hc.2
  · rw [if_neg hc] at h
    have := of_decide_eq_true h
    exact ⟨by omega, fun _ => this⟩

/-- Invariant behind the amended C1: in each single section grid, for
every instructor and day, at most 2 non-elective LEC/TUT sessions and a
collapsed LEC/TUT load of at most 3. -/
def workloadInv (s : GState) : Prop :=
  ∀ (j : ℕ) (sec : Sec), s.secs[j]? = some sec → ∀ (day : ℕ) (i : String),
    lecTutNonElec sec.tt day i ≤ 2 ∧ lecTutLoad sec.tt day i ≤ 3

theorem workload_invariant {enroll : EnrollData} {meals : MealSched}
    {rooms : Option RoomMap} : ∀ s, Reachable enroll meals rooms s → workloadInv s := by
  refine reachable_invariant workloadInv ?_ ?_
  · intro j sec hj
    simp [initState] at hj
  · intro s s2 hstep ih
    unfold workloadInv
    rcases step_cases hstep with ⟨dept, sem, rfl⟩ |
      ⟨k, sec, kd, c, day, start_slot, room, rooms2, hk, rfl, hday, hbound, hwin, hload2, hspace2⟩
    · intro j secj hj d i
      rcases lookup_append hj with hold | rfl
      · exact ih j secj hold d i
      · dsimp only
        rw [lecTutLoad, lecTutNonElec_empty, lecTutElecCodes_empty]
        simp
    · intro j secj hj d i
      rcases lookup_set hj with ⟨hkj, rfl⟩ | ⟨hkj, hold⟩
      · dsimp only
        by_cases hd : d = day
        · subst hd
          have hfree : ∀ j, j < kindLen kd → (sec.tt d (start_slot + j)).type = none :=
            fun j hj2 => (hwin j hj2).2.1
          have hstart : start_slot < numSlots := by
            have := kindLen_pos kd
            omega
          obtain ⟨hne, hcodes⟩ := lecTutCounts_write sec.tt d start_slot kd c.code c.name
            (schedInstructor c) room i hfree hstart
          have hold2 := ih k sec hk d i
          by_cases hq : lecTutQual i (⟨some kd, c.code, c.name, schedInstructor c, room⟩
              : SlotRec) = true
          · -- the new first cell counts for this instructor, so kd is LEC or
            -- TUT, the faculty is i, and the workload check applies
            have hkd : kd = .LEC ∨ kd = .TUT := by
              have := hq
              simp only [lecTutQual, Bool.and_eq_true] at this
              have h2 := this.1.2
              cases kd
              · exact Or.inl rfl
              · exact absurd h2 (by simp)
              · exact Or.inr rfl
              · exact absurd h2 (by simp)
            have hieq : i = schedInstructor c := by
              have := hq
              simp only [lecTutQual, Bool.and_eq_true] at this
              have h1 := this.1.1
              exact (eq_of_beq h1).symm
            have hcheck := hload2 hkd
            rw [← hieq] at hcheck
            obtain ⟨h3, h2⟩ := check_workload_bound hcheck
            have hloadle := lecTutLoad_le_sessions sec.tt d i
            cases helec : is_elective_course c.code with
            | true =>
                have hiteN : (if (lecTutQual i (⟨some kd, c.code, c.name,
                    schedInstructor c, room⟩ : SlotRec) &&
                    !is_elective_course c.code) = true then 1 else 0) = 0 := by
                  rw [helec]
                  simp
                rw [hiteN] at hne
                constructor
                · rw [hne, Nat.add_zero]
                  exact (hold2).1
                · rw [lecTutLoad, hne, Nat.add_zero, hcodes]
                  have hcard : ((if (lecTutQual i (⟨some kd, c.code, c.name,
                      schedInstructor c, room⟩ : SlotRec) &&
                      is_elective_course c.code) = true then {c.code} else ∅)
                      ∪ lecTutElecCodes sec.tt d i).card
                      ≤ (lecTutElecCodes sec.tt d i).card + 1 := by
                    calc _ ≤ (if (lecTutQual i (⟨some kd, c.code, c.name,
                          schedInstructor c, room⟩ : SlotRec) &&
                          is_elective_course c.code) = true
                          then ({c.code} : Finset String) else ∅).card
                          + (lecTutElecCodes sec.tt d i).card := Finset.card_union_le _ _
                      _ ≤ _ := by
                          by_cases hcond : (lecTutQual i (⟨some kd, c.code, c.name,
                              schedInstructor c, room⟩ : SlotRec) &&
                              is_elective_course c.code) = true
                          · rw [if_pos hcond]
                            simp [Nat.add_comm]
                          · rw [if_neg hcond]
                            simp
                  have : lecTutNonElec sec.tt d i + (lecTutElecCodes sec.tt d i).card + 1
                      ≤ 3 := by
                    have := lecTutLoad_le_sessions sec.tt d i
                    rw [lecTutLoad] at this
                    omega
                  rw [lecTutLoad] at hloadle
                  omega
            | false =>
                have h2b := h2 helec
                have hiteC : (if (lecTutQual i (⟨some kd, c.code, c.name,
                    schedInstructor c, room⟩ : SlotRec) &&
                    is_elective_course c.code) = true then ({c.code} : Finset String)
                    else ∅) = ∅ := by
                  rw [helec]
                  simp
                rw [hiteC, Finset.empty_union] at hcodes
                rw [lecTutLoad] at hloadle
                constructor
                · rw [hne]
                  have : (if (lecTutQual i (⟨some kd, c.code, c.name,
                      schedInstructor c, room⟩ : SlotRec) &&
                      !is_elective_course c.code) = true then 1 else 0) ≤ 1 := by
                    by_cases hcond : (lecTutQual i (⟨some kd, c.code, c.name,
                        schedInstructor c, room⟩ : SlotRec) &&
                        !is_elective_course c.code) = true
                    · rw [if_pos hcond]
                    · rw [if_neg hcond]; omega
                  omega
                · rw [lecTutLoad, hne, hcodes]
                  have : (if (lecTutQual i (⟨some kd, c.code, c.name,
                      schedInstructor c, room⟩ : SlotRec) &&
                      !is_elective_course c.code) = true then 1 else 0) ≤ 1 := by
                    by_cases hcond : (lecTutQual i (⟨some kd, c.code, c.name,
                        schedInstructor c, room⟩ : SlotRec) &&
                        !is_elective_course c.code) = true
                    · rw [if_pos hcond]
                    · rw [if_neg hcond]; omega
                  omega
          · -- the new cell does not count for this instructor: nothing changes
            have hqf : lecTutQual i (⟨some kd, c.code, c.name, schedInstructor c, room⟩
                : SlotRec) = false := by
              cases hb : lecTutQual i (⟨some kd, c.code, c.name, schedInstructor c, room⟩
                  : SlotRec)
              · rfl
              · exact absurd hb hq
            rw [hqf, Bool.false_and] at hne hcodes
            simp only [if_neg (by simp : ¬(false = true))] at hne hcodes
            rw [Finset.empty_union] at hcodes
            rw [Nat.add_zero] at hne
            rw [lecTutLoad, hne, hcodes]
            exact ⟨(ih k sec hk d i).1, (ih k sec hk d i).2⟩
        · obtain ⟨hne, hcodes⟩ := lecTutCounts_other_day sec.tt day start_slot kd c.code
            c.name (schedInstructor c) room i d hd
          rw [lecTutLoad, hne, hcodes]
          exact ⟨(ih k sec hk d i).1, (ih k sec hk d i).2⟩
      · exact ih j secj hold d i

/-! ### Concrete example runs

A run without rooms.csv (every allocation yields DEFAULT_ROOM), without
enrollment rows, and one semester base 4 whose meal window is 12:30-13:30
(minutes 750-810, slots 7 and 8; the morning break is slot 3). The
courses share the instructor cell "Prof". -/

def enrollA : EnrollData := []

def mealsA : MealSched := [(4, 750, 810)]

def courseX : Course := ⟨"CS301", "IntroX", "Prof", 3, 1, 0, 0⟩

def courseY : Course := ⟨"CS302", "IntroY", "Prof", 3, 0, 0, 0⟩

def courseZ : Course := ⟨"CS303", "LabZ", "Prof", 0, 0, 4, 0⟩

def reg0 : InstrSched := fun _ _ => ∅

def ttA1 : SectionTT := writeSession emptyTT 0 0 .LEC "CS301" "IntroX" "Prof" "DEFAULT_ROOM"

def ttA2 : SectionTT := writeSession ttA1 0 4 .LEC "CS302" "IntroY" "Prof" "DEFAULT_ROOM"

def ttA3 : SectionTT := writeSession ttA2 0 9 .LAB "CS303" "LabZ" "Prof" "DEFAULT_ROOM"

def ttB1 : SectionTT := writeSession emptyTT 0 13 .LEC "CS301" "IntroX" "Prof" "DEFAULT_ROOM"

def reg1 : InstrSched := addInstr reg0 "Prof" 0 0 3

def reg2 : InstrSched := addInstr reg1 "Prof" 0 4 3

def reg3 : InstrSched := addInstr reg2 "Prof" 0 9 4

def reg4 : InstrSched := addInstr reg3 "Prof" 0 13 3

def stateC0 : GState := initState none

def stateC1 : GState := ⟨[⟨"CS", "4", emptyTT⟩], reg0, none⟩

def stateC2 : GState := ⟨[⟨"CS", "4", ttA1⟩], reg1, none⟩

def stateC3 : GState := ⟨[⟨"CS", "4", ttA2⟩], reg2, none⟩

def stateC4 : GState := ⟨[⟨"CS", "4", ttA3⟩], reg3, none⟩

def stateC5 : GState := ⟨[⟨"CS", "4", ttA3⟩, ⟨"CS", "4", emptyTT⟩], reg3, none⟩

def stateC6 : GState := ⟨[⟨"CS", "4", ttA3⟩, ⟨"CS", "4", ttB1⟩], reg4, none⟩

theorem stepC01 : Step enrollA mealsA stateC0 stateC1 :=
  Step.newSection stateC0 "CS" "4"

theorem stepC12 : Step enrollA mealsA stateC1 stateC2 :=
  Step.placeLec stateC1 0 ⟨"CS", "4", emptyTT⟩ courseX 0 0 "DEFAULT_ROOM"
    none rfl (by decide) (by decide) (by decide) (by decide) (by decide) rfl

theorem stepC23 : Step enrollA mealsA stateC2 stateC3 :=
  Step.placeLec stateC2 0 ⟨"CS", "4", ttA1⟩ courseY 0 4 "DEFAULT_ROOM"
    none rfl (by decide) (by decide) (by decide) (by decide) (by decide) rfl

theorem stepC34 : Step enrollA mealsA stateC3 stateC4 :=
  Step.placeLab stateC3 0 ⟨"CS", "4", ttA2⟩ courseZ 0 9 "DEFAULT_ROOM"
    none rfl (by decide) (by decide) rfl

theorem stepC45 : Step enrollA mealsA stateC4 stateC5 :=
  Step.newSection stateC4 "CS" "4"

theorem stepC56 : Step enrollA mealsA stateC5 stateC6 :=
  Step.placeLec stateC5 1 ⟨"CS", "4", emptyTT⟩ courseX 0 13 "DEFAULT_ROOM"
    none rfl (by decide) (by decide) (by decide) (by decide) (by decide) rfl

theorem reachC6 : Reachable enrollA mealsA none stateC6 :=
  (((((Relation.ReflTransGen.refl.tail stepC01).tail stepC12).tail stepC23).tail
    stepC34).tail stepC45).tail stepC56

/-! ### Spacing of same-course lectures -/

theorem reachable_invariant2 {enroll : EnrollData} {meals : MealSched}
    {rooms : Option RoomMap} (P : GState → Prop)
    (hinit : P (initState rooms))
    (hstep : ∀ s s2, Reachable enroll meals rooms s → Step enroll meals s s2 → P s → P s2) :
    ∀ s, Reachable enroll meals rooms s → P s := by
  intro s h
  induction h with
  | refl => exact hinit
  | tail hab hbc ih => exact hstep _ _ hab hbc ih

theorem addInstr_mono (sched : InstrSched) (f : String) (day start_slot dur : ℕ)
    (f' : String) (d' : ℕ) (x : ℕ) (h : x ∈ sched f' d') :
    x ∈ addInstr sched f day start_slot dur f' d' := by
  unfold addInstr
  by_cases hc : f' = f ∧ d' = day
  · rw [if_pos hc]
    exact Finset.mem_union_left _ h
  · rw [if_neg hc]
    exact h

theorem addInstr_self (sched : InstrSched) (f : String) (day start_slot dur : ℕ)
    (i : ℕ) (hi : i < dur) :
    (start_slot + i) ∈ addInstr sched f day start_slot dur f day := by
  unfold addInstr
  rw [if_pos ⟨rfl, rfl⟩]
  exact Finset.mem_union_right _ (Finset.mem_image.mpr ⟨i, Finset.mem_range.mpr hi, rfl⟩)

/-- A passing spacing check clears every slot strictly within 6 of the
start (other than the start itself). -/
theorem spacing_ok_at {sched : InstrSched} {tt : SectionTT} {i code : String}
    {day start_slot : ℕ}
    (h : check_course_session_spacing sched tt i code day start_slot = true)
    {b : ℕ} (hb : b ≠ start_slot) (h1 : b < start_slot + 6) (h2 : start_slot < b + 6)
    (hb19 : b < numSlots) :
    spacing_conflict sched tt i code day b = false := by
  unfold check_course_session_spacing at h
  rw [Bool.not_eq_true', Bool.or_eq_false_iff] at h
  obtain ⟨hprev, hnext⟩ := h
  rw [List.any_eq_false] at hprev hnext
  by_cases hlt : b < start_slot
  · have hmem : b ∈ List.range' (start_slot - 6) (start_slot - (start_slot - 6)) := by
      rw [List.mem_range'_1]
      omega
    have hnb := hprev _ hmem
    cases hc : spacing_conflict sched tt i code day b
    · rfl
    · exact absurd hc hnb
  · have hmem : b ∈ List.range' (start_slot + 1)
        (min numSlots (start_slot + 6) - (start_slot + 1)) := by
      rw [List.mem_range'_1]
      have hmin : min numSlots (start_slot + 6) = min 19 (start_slot + 6) := rfl
      omega
    have hnb := hnext _ hmem
    cases hc : spacing_conflict sched tt i code day b
    · rfl
    · exact absurd hc hnb

theorem spacing_conflict_true {sched : InstrSched} {tt : SectionTT} {i code : String}
    {day b : ℕ} (h1 : b ∈ sched i day) (h2 : (tt day b).code = code)
    (h3 : (tt day b).type = some Kind.LEC) :
    spacing_conflict sched tt i code day b = true := by
  unfold spacing_conflict
  rw [h3, h2]
  simp [h1]

/-- Invariant: every placed session's covered window is in the register
under the faculty recorded on its first slot. -/
def windowRegistered (s : GState) : Prop :=
  ∀ (j : ℕ) (sec : Sec), s.secs[j]? = some sec → ∀ day a kd,
    (sec.tt day a).type = some kd → (sec.tt day a).code ≠ "" →
    ∀ i, i < kindLen kd → (a + i) ∈ s.instr (sec.tt day a).faculty day

/-- Invariant: two placed LEC sessions of the same course by the same
instructor on the same day of one section start at least 6 slots apart. -/
def lecSpaced (s : GState) : Prop :=
  ∀ (j : ℕ) (sec : Sec), s.secs[j]? = some sec → ∀ day a b,
    a ≠ b → (sec.tt day a).type = some .LEC → (sec.tt day a).code ≠ "" →
    (sec.tt day b).type = some .LEC → (sec.tt day b).code ≠ "" →
    (sec.tt day a).code = (sec.tt day b).code →
    (sec.tt day a).faculty = (sec.tt day b).faculty →
    a + 6 ≤ b ∨ b + 6 ≤ a

theorem spacing_invariant {enroll : EnrollData} {meals : MealSched}
    {rooms : Option RoomMap} :
    ∀ s, Reachable enroll meals rooms s → windowRegistered s ∧ lecSpaced s := by
  refine reachable_invariant2 (fun st => windowRegistered st ∧ lecSpaced st) ?_ ?_
  · constructor
    · intro j sec hj
      simp [initState] at hj
    · intro j sec hj
      simp [initState] at hj
  · intro s s2 hpre hstep ih
    obtain ⟨ihreg, ihspc⟩ := ih
    have hgrid := grid_invariant s hpre
    unfold windowRegistered lecSpaced
    rcases step_cases hstep with ⟨dept, sem, rfl⟩ |
      ⟨k, sec, kd, c, day, start_slot, room, rooms2, hk, rfl, hday, hbound, hwin, hload2, hspace2⟩
    · constructor
      · intro j secj hj d a kda hta hca i hi
        rcases lookup_append hj with hold | rfl
        · exact ihreg j secj hold d a kda hta hca i hi
        · cases hta
      · intro j secj hj d a b hab ta ca tb cb hcode hfac
        rcases lookup_append hj with hold | rfl
        · exact ihspc j secj hold d a b hab ta ca tb cb hcode hfac
        · cases ta
    · have hfree : ∀ j, j < kindLen kd → (sec.tt day (start_slot + j)).type = none :=
        fun j hj2 => (hwin j hj2).2.1
      have hclassify : ∀ d x,
          (writeSession sec.tt day start_slot kd c.code c.name (schedInstructor c) room
            d x).code ≠ "" →
          (d = day ∧ x = start_slot) ∨
            writeSession sec.tt day start_slot kd c.code c.name (schedInstructor c) room
              d x = sec.tt d x := by
        intro d x hcx
        by_cases hin : d = day ∧ start_slot ≤ x ∧ x < start_slot + kindLen kd
        · obtain ⟨hd, hx1, hx2⟩ := hin
          subst hd
          by_cases hxs : x = start_slot
          · exact Or.inl ⟨rfl, hxs⟩
          · rw [writeSession_tail _ _ _ _ _ _ _ _ _ hx1 hx2 hxs] at hcx
            exact absurd rfl hcx
        · right
          by_cases hd : d = day
          · subst hd
            exact writeSession_out _ _ _ _ _ _ _ _ _ (fun hc2 => hin ⟨rfl, hc2.1, hc2.2⟩)
          · exact writeSession_other_day _ _ _ _ _ _ _ _ _ _ hd
      have haux : kd = .LEC → ∀ x, x ≠ start_slot →
          (sec.tt day x).type = some .LEC → (sec.tt day x).code ≠ "" →
          (sec.tt day x).code = c.code →
          (sec.tt day x).faculty = schedInstructor c →
          x + 6 ≤ start_slot ∨ start_slot + 6 ≤ x := by
        intro hkdl x hxs htx hcx hcx2 hfx
        by_contra hcon
        push_neg at hcon
        have hx19 : x < numSlots :=
          (hgrid.1 k sec hk day x (by rw [htx]; rfl)).1
        have hreg : x ∈ s.instr (schedInstructor c) day := by
          have hr := ihreg k sec hk day x .LEC htx hcx 0 (by decide)
          rw [Nat.add_zero, hfx] at hr
          exact hr
        have hok := spacing_ok_at (hspace2 hkdl) hxs (by omega) (by omega) hx19
        have hbad := spacing_conflict_true hreg hcx2 htx
        rw [hbad] at hok
        cases hok
      constructor
      · intro j secj hj d a kda hta hca i hi
        rcases lookup_set hj with ⟨hkj, rfl⟩ | ⟨hkj, hold⟩
        · dsimp only at hta hca ⊢
          rcases hclassify d a hca with ⟨hd, hxs⟩ | hcell
          · subst hd
            subst hxs
            rw [writeSession_start] at hta ⊢
            have hkd : kd = kda := Option.some_inj.mp hta
            subst hkd
            exact addInstr_self s.instr (schedInstructor c) d a (kindLen kd) i hi
          · rw [hcell] at hta hca ⊢
            exact addInstr_mono _ _ _ _ _ _ _ _ (ihreg k sec hk d a kda hta hca i hi)
        · exact addInstr_mono _ _ _ _ _ _ _ _ (ihreg j secj hold d a kda hta hca i hi)
      · intro j secj hj d a b hab ta ca tb cb hcode hfac
        rcases lookup_set hj with ⟨hkj, rfl⟩ | ⟨hkj, hold⟩
        · dsimp only at ta ca tb cb hcode hfac
          rcases hclassify d a ca with ⟨hd1, ha1⟩ | hcella
          · subst hd1
            subst ha1
            rw [writeSession_start] at ta hcode hfac
            have hkdl : kd = .LEC := Option.some_inj.mp ta
            rcases hclassify d b cb with ⟨_, hb1⟩ | hcellb
            · exact absurd hb1.symm hab
            · rw [hcellb] at tb cb hcode hfac
              have := haux hkdl b (fun hbe => hab hbe.symm) tb cb hcode.symm hfac.symm
              exact this.symm
          · rcases hclassify d b cb with ⟨hd2, hb1⟩ | hcellb
            · subst hd2
              subst hb1
              rw [writeSession_start] at tb hcode hfac
              have hkdl : kd = .LEC := Option.some_inj.mp tb
              rw [hcella] at ta ca hcode hfac
              exact haux hkdl a hab ta ca hcode hfac
            · by_cases hd : d = day
              · subst hd
                rw [hcella] at ta ca
                rw [hcellb] at tb cb
                rw [hcella, hcellb] at hcode hfac
                exact ihspc k sec hk d a b hab ta ca tb cb hcode hfac
              · have ea : writeSession sec.tt day start_slot kd c.code c.name
                    (schedInstructor c) room d a = sec.tt d a :=
                  writeSession_other_day _ _ _ _ _ _ _ _ _ _ hd
                have eb : writeSession sec.tt day start_slot kd c.code c.name
                    (schedInstructor c) room d b = sec.tt d b :=
                  writeSession_other_day _ _ _ _ _ _ _ _ _ _ hd
                rw [ea] at ta ca
                rw [eb] at tb cb
                rw [ea, eb] at hcode hfac
                exact ihspc k sec hk d a b hab ta ca tb cb hcode hfac
        · exact ihspc j secj hold d a b hab ta ca tb cb hcode hfac

/-! ### Further concrete runs -/

/-- Section B places its two required CS301 lectures on day 1. -/
def ttB2a : SectionTT := writeSession ttB1 1 0 .LEC "CS301" "IntroX" "Prof" "DEFAULT_ROOM"

def ttB2b : SectionTT := writeSession ttB2a 1 9 .LEC "CS301" "IntroX" "Prof" "DEFAULT_ROOM"

def reg5 : InstrSched := addInstr reg4 "Prof" 1 0 3

def reg6 : InstrSched := addInstr reg5 "Prof" 1 9 3

def stateC7 : GState := ⟨[⟨"CS", "4", ttA3⟩, ⟨"CS", "4", ttB2a⟩], reg5, none⟩

def stateC8 : GState := ⟨[⟨"CS", "4", ttA3⟩, ⟨"CS", "4", ttB2b⟩], reg6, none⟩

theorem stepC67 : Step enrollA mealsA stateC6 stateC7 :=
  Step.placeLec stateC6 1 ⟨"CS", "4", ttB1⟩ courseX 1 0 "DEFAULT_ROOM"
    none rfl (by decide) (by decide) (by decide) (by decide) (by decide) rfl

theorem stepC78 : Step enrollA mealsA stateC7 stateC8 :=
  Step.placeLec stateC7 1 ⟨"CS", "4", ttB2a⟩ courseX 1 9 "DEFAULT_ROOM"
    none rfl (by decide) (by decide) (by decide) (by decide) (by decide) rfl

theorem reachC8 : Reachable enrollA mealsA none stateC8 :=
  (reachC6.tail stepC67).tail stepC78

/-- The tutorial placed after the lecture of the same course: the
spacing check runs on the stale start 0, the fresh draw is 4. -/
def ttT : SectionTT := writeSession ttA1 0 4 .TUT "CS301" "IntroX" "Prof" "DEFAULT_ROOM"

def regT : InstrSched := addInstr reg1 "Prof" 0 4 2

def stateT : GState := ⟨[⟨"CS", "4", ttT⟩], regT, none⟩

theorem stepC2T : Step enrollA mealsA stateC2 stateT :=
  Step.placeTut stateC2 0 ⟨"CS", "4", ttA1⟩ courseX 0 0 4 "DEFAULT_ROOM" none
    rfl (by decide) (by decide) (by decide) (by decide) (by decide) rfl

theorem reachT : Reachable enrollA mealsA none stateT :=
  ((Relation.ReflTransGen.refl.tail stepC01).tail stepC12).tail stepC2T

/-- Two sections place the same course with the same instructor 4 slots
apart on the same day: the per-section grids hide each other's codes. -/
def ttD : SectionTT := writeSession emptyTT 0 4 .LEC "CS301" "IntroX" "Prof" "DEFAULT_ROOM"

def regD : InstrSched := addInstr reg1 "Prof" 0 4 3

def stateD3 : GState := ⟨[⟨"CS", "4", ttA1⟩, ⟨"CS", "4", emptyTT⟩], reg1, none⟩

def stateD4 : GState := ⟨[⟨"CS", "4", ttA1⟩, ⟨"CS", "4", ttD⟩], regD, none⟩

theorem stepD23 : Step enrollA mealsA stateC2 stateD3 :=
  Step.newSection stateC2 "CS" "4"

theorem stepD34 : Step enrollA mealsA stateD3 stateD4 :=
  Step.placeLec stateD3 1 ⟨"CS", "4", emptyTT⟩ courseX 0 4 "DEFAULT_ROOM"
    none rfl (by decide) (by decide) (by decide) (by decide) (by decide) rfl

theorem reachD4 : Reachable enrollA mealsA none stateD4 :=
  (((Relation.ReflTransGen.refl.tail stepC01).tail stepC12).tail stepD23).tail stepD34

/-- A course whose Faculty cell lists alternatives "A/B". -/
def courseW : Course := ⟨"CS304", "IntroW", "A/B", 3, 0, 0, 0⟩

def ttW : SectionTT := writeSession emptyTT 0 0 .LEC "CS304" "IntroW" "A/B" "DEFAULT_ROOM"

def regW : InstrSched := addInstr reg0 "A/B" 0 0 3

def stateW : GState := ⟨[⟨"CS", "4", ttW⟩], regW, none⟩

theorem stepC1W : Step enrollA mealsA stateC1 stateW :=
  Step.placeLec stateC1 0 ⟨"CS", "4", emptyTT⟩ courseW 0 0 "DEFAULT_ROOM"
    none rfl (by decide) (by decide) (by decide) (by decide) (by decide) rfl

theorem reachW : Reachable enrollA mealsA none stateW :=
  (Relation.ReflTransGen.refl.tail stepC01).tail stepC1W

/-! ### Claims C1, C2, C4, C5, C6, C8, C9 -/

/-- C1 (amended): within each single section grid, for every instructor
and day, counting only the LEC and TUT sessions of that one section
(same-elective-code sessions collapsed), the non-elective count never
exceeds 2 and the collapsed count never exceeds 3. Lab sessions are not
bounded (lab placement never consults check_instructor_workload) and no
bound holds across sections. -/
theorem C1_per_section_lectut_bound {enroll : EnrollData} {meals : MealSched}
    {rooms : Option RoomMap} {s : GState} (hreach : Reachable enroll meals rooms s) :
    ∀ (j : ℕ) (sec : Sec), s.secs[j]? = some sec → ∀ (day : ℕ) (i : String),
      lecTutNonElec sec.tt day i ≤ 2 ∧
      lecTutNonElec sec.tt day i + (lecTutElecCodes sec.tt day i).card ≤ 3 :=
  fun j sec hj day i => workload_invariant s hreach j sec hj day i

theorem C1_per_section_lectut_bound_witness :
    lecTutNonElec ttA3 0 "Prof" ≤ 2 ∧
      lecTutNonElec ttA3 0 "Prof" + (lecTutElecCodes ttA3 0 "Prof").card ≤ 3 :=
  C1_per_section_lectut_bound reachC6 0 ⟨"CS", "4", ttA3⟩ rfl 0 "Prof"

/-- C1 as stated is false: in the reachable state stateC6 the instructor
Prof holds 4 non-elective LEC/LAB/TUT sessions on day 0 across the two
sections (2 lectures and 1 lab in section A, 1 lecture in section B),
exceeding the claimed bound of 2; even within section A alone the count
is 3 (lab placement skips the workload check), and even counting only
LEC/TUT sessions the cross-section total is 3. -/
theorem C1_counterexample :
    Reachable enrollA mealsA none stateC6 ∧
      globalNonElec stateC6 0 "Prof" = 4 ∧
      globalLecTutNonElec stateC6 0 "Prof" = 3 ∧
      nonElecCount ttA3 0 "Prof" = 3 :=
  ⟨reachC6, by decide, by decide, by decide⟩

/-- C2 (amended): within a single section, any two placed LEC sessions
of the same course code by the same recorded instructor on the same day
start at least 6 slots apart. (TUT sessions are excluded: the tutorial
loop checks spacing on a stale start slot; and sessions of other
sections are excluded: their grids carry empty code cells.) -/
theorem C2_lec_spacing_per_section {enroll : EnrollData} {meals : MealSched}
    {rooms : Option RoomMap} {s : GState} (hreach : Reachable enroll meals rooms s) :
    ∀ (j : ℕ) (sec : Sec), s.secs[j]? = some sec → ∀ day a b,
      a ≠ b → (sec.tt day a).type = some .LEC → (sec.tt day a).code ≠ "" →
      (sec.tt day b).type = some .LEC → (sec.tt day b).code ≠ "" →
      (sec.tt day a).code = (sec.tt day b).code →
      (sec.tt day a).faculty = (sec.tt day b).faculty →
      a + 6 ≤ b ∨ b + 6 ≤ a :=
  fun j sec hj => (spacing_invariant s hreach).2 j sec hj

theorem C2_lec_spacing_per_section_witness : (0 : ℕ) + 6 ≤ 9 ∨ (9 : ℕ) + 6 ≤ 0 :=
  C2_lec_spacing_per_section reachC8 1 ⟨"CS", "4", ttB2b⟩ rfl 1 0 9
    (by decide) (by decide) (by decide) (by decide) (by decide) (by decide) (by decide)

/-- C2 as stated is false: (a) in the reachable state stateT, the same
section holds a LEC of CS301 by Prof at day 0 slot 0 and a TUT of CS301
by Prof at day 0 slot 4, only 4 slots apart (the tutorial loop checked
spacing at the stale start 0); (b) in the reachable state stateD4, two
sections hold LECs of CS301 by Prof at day 0, slots 0 and 4. -/
theorem C2_counterexample :
    (Reachable enrollA mealsA none stateT ∧
      (ttT 0 0).type = some Kind.LEC ∧ (ttT 0 0).code = "CS301" ∧
      (ttT 0 0).faculty = "Prof" ∧
      (ttT 0 4).type = some Kind.TUT ∧ (ttT 0 4).code = "CS301" ∧
      (ttT 0 4).faculty = "Prof") ∧
    (Reachable enrollA mealsA none stateD4 ∧
      stateD4.secs[0]? = some ⟨"CS", "4", ttA1⟩ ∧
      stateD4.secs[1]? = some ⟨"CS", "4", ttD⟩ ∧
      (ttA1 0 0).type = some Kind.LEC ∧ (ttA1 0 0).code = "CS301" ∧
      (ttA1 0 0).faculty = "Prof" ∧
      (ttD 0 4).type = some Kind.LEC ∧ (ttD 0 4).code = "CS301" ∧
      (ttD 0 4).faculty = "Prof") :=
  ⟨⟨reachT, by decide, by decide, by decide, by decide, by decide, by decide⟩,
    ⟨reachD4, rfl, rfl, by decide, by decide, by decide, by decide, by decide, by decide⟩⟩

/-- The component lists of a character split are never empty. -/
theorem splitOnChar_ne_nil (sep : Char) (l : List Char) : splitOnChar sep l ≠ [] := by
  induction l with
  | nil => simp [splitOnChar]
  | cons c rest ih =>
      simp only [splitOnChar]
      by_cases hc : c = sep
      · rw [if_pos hc]
        simp
      · rw [if_neg hc]
        rcases hr : splitOnChar sep rest with _ | ⟨h, t⟩
        · simp
        · simp

/-- C4 (amended): choose_instructor does return the first
slash-separated alternative (stripped), but the generator never invokes
it: the instructor string used for the register, the conflict checks and
the recorded faculty is schedInstructor c, the raw Faculty cell. -/
theorem C4_raw_faculty_used (c : Course) :
    schedInstructor c = c.faculty ∧
    (strHasChar c.faculty '/' = true →
      choose_instructor c.faculty
        = strTrim ((strSplit c.faculty '/').headD c.faculty)) := by
  refine ⟨rfl, ?_⟩
  intro h
  unfold choose_instructor
  rw [if_pos h]
  rcases hs : strSplit c.faculty '/' with _ | ⟨a, t⟩
  · exact absurd (congrArg (List.map String.mk) (List.map_eq_nil_iff.mp hs))
      (by simpa [strSplit] using splitOnChar_ne_nil '/' c.faculty.data)
  · rfl

theorem C4_raw_faculty_used_witness :
    schedInstructor courseW = "A/B" ∧
      choose_instructor "A/B" = strTrim ((strSplit "A/B" '/').headD "A/B") :=
  ⟨(C4_raw_faculty_used courseW).1,
    (C4_raw_faculty_used courseW).2 (by decide)⟩

/-- C4 as stated is false: in the reachable state stateW the course with
Faculty cell "A/B" is recorded and registered under the raw string
"A/B", although choose_instructor "A/B" = "A": the first alternative is
not the register key, not the conflict-check identity, and not the
recorded faculty. -/
theorem C4_counterexample :
    Reachable enrollA mealsA none stateW ∧
      choose_instructor "A/B" = "A" ∧
      (ttW 0 0).faculty = "A/B" ∧
      stateW.instr "A/B" 0 = {0, 1, 2} ∧
      stateW.instr "A" 0 = ∅ ∧
      ("A/B" : String) ≠ "A" :=
  ⟨reachW, by decide, by decide, by decide, by decide, by decide⟩

/-- C5: the tutorial loop checks spacing before drawing the fresh start,
on the stale start value. In the run reaching stateT the stale check (at
start 0) passes while the spacing check at the actually drawn pair
(day 0, start 4) is false, and the TUT of CS301 is committed at slot 4
anyway, 4 slots from the LEC of CS301 by the same instructor. -/
theorem C5_stale_spacing_check :
    check_course_session_spacing reg1 ttA1 "Prof" "CS301" 0 0 = true ∧
      check_course_session_spacing reg1 ttA1 "Prof" "CS301" 0 4 = false ∧
      Reachable enrollA mealsA none stateT ∧
      (ttT 0 4).type = some Kind.TUT ∧ (ttT 0 4).code = "CS301" :=
  ⟨by decide, by decide, reachT, by decide, by decide⟩

theorem C6_no_break_overlap_witness :
    is_break_period mealsA (timeSlotAt (0 + 0)) (some (semBaseOf "4")) = false :=
  C6_no_break_overlap reachC6 0 ⟨"CS", "4", ttA3⟩ rfl 0 0 Kind.LEC
    (by decide) (by decide) 0 (by decide)

/-- C8: determine_required_sessions maps the credit tuple exactly as the
specification states (sessionsSpec spells out the claimed mapping). -/
theorem C8_deriver_matches_spec (L : ℚ) (T P S : ℕ) :
    determine_required_sessions L T P S = sessionsSpec L T P S := rfl

/-- C9: when combined.csv is missing or unparseable under every candidate
encoding, the run prints a diagnostic, returns the dummy file list,
writes no workbook, and raises no exception (so the exit status is zero,
consistent with nonzero exits only for unrecoverable I/O). -/
theorem C9_missing_catalog_aborts (attempts : List (LoadAttempt Course))
    (restOfRun : List Course → RunResult)
    (h : ∀ rows, LoadAttempt.ok rows ∉ attempts) :
    runSkeleton attempts restOfRun = ⟨["error.xlsx"], false, true, false⟩ := by
  unfold runSkeleton
  rw [try_load_csv_all_fail attempts h]
  rfl

theorem C9_missing_catalog_aborts_witness :
    runSkeleton [.otherErr "FileNotFoundError", .otherErr "FileNotFoundError",
        .otherErr "FileNotFoundError"] (fun _ => ⟨["timetable_all.xlsx"], true, false, false⟩)
      = ⟨["error.xlsx"], false, true, false⟩ :=
  C9_missing_catalog_aborts _ _ (by intro rows hmem; simp at hmem)

/-! ### Room identity strings and the well-formed store -/

/-- A well-formed imported room inventory (import_facilities indexes the
csv rows by their id cell): distinct room ids, none containing the pair
separator ',' or the display separator '+'. -/
def wfStore (m : RoomMap) : Prop :=
  (m.map Prod.fst).Nodup ∧
    ∀ p ∈ m, strHasChar p.1 ',' = false ∧ strHasChar p.1 '+' = false

/-- The room ids a grid cell's classroom string stands for: the parts of
the displayed string around '+' (a paired lab cell shows "A+B"). -/
def roomIdsOf (cr : String) : List String := strSplit cr '+'

theorem strHasChar_true_iff {s : String} {c : Char} :
    strHasChar s c = true ↔ c ∈ s.data :=
  ⟨fun h => List.elem_iff.mp h, fun h => List.elem_iff.mpr h⟩

theorem strHasChar_false_iff {s : String} {c : Char} :
    strHasChar s c = false ↔ c ∉ s.data := by
  rw [← Bool.not_eq_true, not_iff_not]
  exact strHasChar_true_iff

theorem splitOnChar_not_mem {sep : Char} : ∀ {l : List Char}, sep ∉ l →
    splitOnChar sep l = [l] := by
  intro l
  induction l with
  | nil => intro _; rfl
  | cons c rest ih =>
      intro h
      rw [List.mem_cons, not_or] at h
      rw [splitOnChar, if_neg (fun he => h.1 he.symm), ih h.2]

theorem splitOnChar_sep_append {sep : Char} : ∀ {a : List Char} (b : List Char),
    sep ∉ a → splitOnChar sep (a ++ sep :: b) = a :: splitOnChar sep b := by
  intro a
  induction a with
  | nil => intro b _; rw [List.nil_append, splitOnChar, if_pos rfl]
  | cons c rest ih =>
      intro b h
      rw [List.mem_cons, not_or] at h
      rw [List.cons_append, splitOnChar, if_neg (fun he => h.1 he.symm), ih b h.2]

theorem data_append (a b : String) : (a ++ b).data = a.data ++ b.data := rfl

/-- Splitting a ++ sep ++ b at the one-character separator string gives
back the two parts, when neither contains the separator. -/
theorem strSplit_pair_of {a b m : String} {sep : Char} (hm : m.data = [sep])
    (ha : strHasChar a sep = false) (hb : strHasChar b sep = false) :
    strSplit (a ++ m ++ b) sep = [a, b] := by
  have hd : (a ++ m ++ b).data = a.data ++ sep :: b.data := by
    rw [data_append, data_append, hm, List.append_assoc, List.singleton_append]
  rw [strSplit, hd, splitOnChar_sep_append b.data (strHasChar_false_iff.mp ha),
    splitOnChar_not_mem (strHasChar_false_iff.mp hb)]
  rfl

theorem strSplit_no_sep {s : String} {sep : Char} (h : strHasChar s sep = false) :
    strSplit s sep = [s] := by
  rw [strSplit, splitOnChar_not_mem (strHasChar_false_iff.mp h)]
  rfl

theorem strHasChar_middle (a m b : String) {c : Char} (hm : c ∈ m.data) :
    strHasChar (a ++ m ++ b) c = true := by
  rw [strHasChar_true_iff, data_append, data_append]
  exact List.mem_append.mpr (Or.inl (List.mem_append.mpr (Or.inr hm)))

theorem strHasChar_join {a m b : String} {c : Char} (hc : c ∉ m.data)
    (ha : strHasChar a c = false) (hb : strHasChar b c = false) :
    strHasChar (a ++ m ++ b) c = false := by
  rw [strHasChar_false_iff, data_append, data_append]
  intro h
  rcases List.mem_append.mp h with h1 | h1
  · rcases List.mem_append.mp h1 with h2 | h2
    · exact strHasChar_false_iff.mp ha h2
    · exact hc h2
  · exact strHasChar_false_iff.mp hb h1

theorem display_room_id {rid : String} (h : strHasChar rid ',' = false) :
    display_room rid = rid := by
  rw [display_room, h]
  rfl

theorem display_room_pair {a b : String} (ha : strHasChar a ',' = false)
    (hb : strHasChar b ',' = false) :
    display_room (a ++ "," ++ b) = a ++ "+" ++ b := by
  rw [display_room, strHasChar_middle a "," b (by decide),
    strSplit_pair_of (by decide) ha hb]
  rfl

theorem roomIdsOf_single {id : String} (h : strHasChar id '+' = false) :
    roomIdsOf id = [id] :=
  strSplit_no_sep h

theorem roomIdsOf_pair {a b : String} (ha : strHasChar a '+' = false)
    (hb : strHasChar b '+' = false) :
    roomIdsOf (a ++ "+" ++ b) = [a, b] :=
  strSplit_pair_of (by decide) ha hb

theorem roomIdsOf_comma {a b : String} (ha : strHasChar a '+' = false)
    (hb : strHasChar b '+' = false) :
    roomIdsOf (a ++ "," ++ b) = [a ++ "," ++ b] :=
  strSplit_no_sep (strHasChar_join (by decide) ha hb)

/-! ### Store lookups and markings -/

theorem lookupRoom_mem {m : RoomMap} {x : String} {r : Room}
    (h : lookupRoom m x = some r) : (x, r) ∈ m := by
  rw [lookupRoom] at h
  rcases hf : m.find? (fun p => p.1 == x) with _ | p
  · rw [hf] at h; cases h
  · rw [hf] at h
    have hpred := List.find?_some hf
    have hx : p.1 = x := eq_of_beq hpred
    have hr : p.2 = r := Option.some_inj.mp h
    have hm := List.mem_of_find?_eq_some hf
    rw [← hx, ← hr]
    exact hm

theorem lookupRoom_of_mem {m : RoomMap} (hnd : (m.map Prod.fst).Nodup)
    {id : String} {r : Room} (hm : (id, r) ∈ m) : lookupRoom m id = some r := by
  induction m with
  | nil => cases hm
  | cons p rest ih =>
      rcases List.mem_cons.mp hm with rfl | htail
      · rw [lookupRoom, List.find?_cons_of_pos _ (by simp)]
        rfl
      · have hk : (p.1 == id) = false := by
          rw [List.map_cons, List.nodup_cons] at hnd
          rw [beq_eq_false_iff_ne]
          intro he
          exact hnd.1 (he ▸ List.mem_map.mpr ⟨(id, r), htail, rfl⟩)
        rw [lookupRoom, List.find?_cons_of_neg _ (by simp [hk])]
        exact ih (List.nodup_cons.mp (by rw [List.map_cons] at hnd; exact hnd)).2 htail

theorem lookupRoom_none_comma {m : RoomMap} (hwf : wfStore m) {x : String}
    (hx : strHasChar x ',' = true) : lookupRoom m x = none := by
  rcases h : lookupRoom m x with _ | r
  · rfl
  · have := (hwf.2 (x, r) (lookupRoom_mem h)).1
    rw [hx] at this
    cases this

theorem markRoomId_map_keys (m : RoomMap) (id : String) (d s dur : ℕ) :
    (markRoomId m id d s dur).map Prod.fst = m.map Prod.fst := by
  induction m with
  | nil => rfl
  | cons p rest ih =>
      rw [markRoomId, List.map_cons, List.map_cons, List.map_cons]
      rw [markRoomId] at ih
      rw [ih]
      by_cases hp : p.1 = id
      · rw [if_pos hp]
      · rw [if_neg hp]

theorem wfStore_mark {m : RoomMap} (h : wfStore m) (id : String) (d s dur : ℕ) :
    wfStore (markRoomId m id d s dur) := by
  constructor
  · rw [markRoomId_map_keys]
    exact h.1
  · intro p hp
    rw [markRoomId] at hp
    obtain ⟨q, hq, hpq⟩ := List.mem_map.mp hp
    have hfst : p.1 = q.1 := by
      by_cases hqi : q.1 = id
      · rw [if_pos hqi] at hpq; rw [← hpq]
      · rw [if_neg hqi] at hpq; rw [← hpq]
    rw [hfst]
    exact h.2 q hq

theorem lookupRoom_mark (m : RoomMap) (id x : String) (d s dur : ℕ) :
    lookupRoom (markRoomId m id d s dur) x =
      (lookupRoom m x).map (fun r => if x = id then markSched r d s dur else r) := by
  induction m with
  | nil => rfl
  | cons p rest ih =>
      obtain ⟨k, r⟩ := p
      by_cases hkx : k = x
      · subst hkx
        by_cases hki : k = id
        · subst hki
          simp [markRoomId, lookupRoom, List.find?]
        · simp [markRoomId, lookupRoom, List.find?, hki]
      · have hbeq : (k == x) = false := beq_eq_false_iff_ne.mpr hkx
        by_cases hki : k = id
        · subst hki
          simp only [markRoomId, List.map_cons, if_pos rfl] at ih ⊢
          rw [lookupRoom, List.find?_cons_of_neg _ (by simp [hbeq])]
          rw [show lookupRoom ((k, r) :: rest) x =
            (rest.find? (fun p => p.1 == x)).map (fun p => p.2) from by
              rw [lookupRoom, List.find?_cons_of_neg _ (by simp [hbeq])]]
          rw [lookupRoom] at ih
          exact ih
        · simp only [markRoomId, List.map_cons, if_neg hki] at ih ⊢
          rw [lookupRoom, List.find?_cons_of_neg _ (by simp [hbeq])]
          rw [show lookupRoom ((k, r) :: rest) x =
            (rest.find? (fun p => p.1 == x)).map (fun p => p.2) from by
              rw [lookupRoom, List.find?_cons_of_neg _ (by simp [hbeq])]]
          rw [lookupRoom] at ih
          exact ih

theorem markSched_sched_eq (r : Room) (d s dur : ℕ) (d' : ℕ) :
    (markSched r d s dur).sched d' =
      if d' = d then r.sched d ∪ (Finset.range dur).image (fun i => s + i)
      else r.sched d' := rfl

theorem markSched_sched_sub (r : Room) (d s dur : ℕ) (d' : ℕ) {t : ℕ}
    (h : t ∈ r.sched d') : t ∈ (markSched r d s dur).sched d' := by
  rw [markSched_sched_eq]
  by_cases hd : d' = d
  · subst hd
    rw [if_pos rfl]
    exact Finset.mem_union_left _ h
  · rw [if_neg hd]
    exact h

theorem markSched_mem (r : Room) (d s dur i : ℕ) (hi : i < dur) :
    s + i ∈ (markSched r d s dur).sched d := by
  rw [markSched_sched_eq, if_pos rfl]
  exact Finset.mem_union_right _
    (Finset.mem_image.mpr ⟨i, Finset.mem_range.mpr hi, rfl⟩)

theorem roomFree_iff {r : Room} {d s dur : ℕ} :
    roomFree r d s dur = true ↔ ∀ i, i < dur → (s + i) ∉ r.sched d := by
  rw [roomFree, List.all_eq_true]
  constructor
  · intro h i hi
    exact of_decide_eq_true (h i (List.mem_range.mpr hi))
  · intro h i hi
    exact decide_eq_true (h i (List.mem_range.mp hi))

/-! ### What the allocator hands out -/

/-- A successful allocate_room returns a member of its map that was free
over the whole window. -/
theorem allocate_room_spec {m : RoomMap} {t : String} {sz d s dur : ℕ}
    {exc : List String} {id : String}
    (h : allocate_room m t sz d s dur exc = some id) :
    ∃ r, (id, r) ∈ m ∧ roomFree r d s dur = true := by
  induction m with
  | nil => cases h
  | cons p rest ih =>
      obtain ⟨rid0, r0⟩ := p
      simp only [allocate_room] at h
      split at h
      · obtain ⟨r, hr, hf⟩ := ih h
        exact ⟨r, List.mem_cons_of_mem _ hr, hf⟩
      · split at h
        · obtain ⟨r, hr, hf⟩ := ih h
          exact ⟨r, List.mem_cons_of_mem _ hr, hf⟩
        · split at h
          · obtain ⟨r, hr, hf⟩ := ih h
            exact ⟨r, List.mem_cons_of_mem _ hr, hf⟩
          · split at h
            · obtain ⟨r, hr, hf⟩ := ih h
              exact ⟨r, List.mem_cons_of_mem _ hr, hf⟩
            · split at h
              · obtain ⟨r, hr, hf⟩ := ih h
                exact ⟨r, List.mem_cons_of_mem _ hr, hf⟩
              · split at h
                · rename_i hfree
                  obtain rfl := Option.some_inj.mp h
                  exact ⟨r0, List.mem_cons_self _ _, hfree⟩
                · obtain ⟨r, hr, hf⟩ := ih h
                  exact ⟨r, List.mem_cons_of_mem _ hr, hf⟩

/-- A successful pairScan returns a scanned room of the requested lab
type that was free, together with its adjacent room, also free. -/
theorem pairScan_spec {scan all : RoomMap} {ct : String} {d s dur : ℕ}
    {exc : List String} {a b : String}
    (h : pairScan scan all ct d s dur exc = some (a, b)) :
    ∃ ra, (a, ra) ∈ scan ∧ strUpper ra.rtype = ct ∧ roomFree ra d s dur = true ∧
      find_adjacent_room a all = some b ∧
      ∃ rb, lookupRoom all b = some rb ∧ roomFree rb d s dur = true := by
  induction scan with
  | nil => cases h
  | cons p rest ih =>
      obtain ⟨rid0, r0⟩ := p
      simp only [pairScan] at h
      split at h
      · exact (ih h).imp fun ra hra => ⟨List.mem_cons_of_mem _ hra.1, hra.2⟩
      · rename_i hcond
        have htype : strUpper r0.rtype = ct := by
          by_contra hne
          apply hcond
          rw [Bool.or_eq_true]
          exact Or.inr (bne_iff_ne.mpr hne)
        split at h
        · rename_i hfree
          split at h
          · rename_i adj hadj
            split at h
            · split at h
              · rename_i aroom harm
                split at h
                · rename_i hafree
                  have hpair := Option.some_inj.mp h
                  rw [Prod.mk.injEq] at hpair
                  obtain ⟨rfl, rfl⟩ := hpair
                  exact ⟨r0, List.mem_cons_self _ _, htype, hfree, hadj, aroom, harm,
                    hafree⟩
                · exact (ih h).imp fun ra hra => ⟨List.mem_cons_of_mem _ hra.1, hra.2⟩
              · exact (ih h).imp fun ra hra => ⟨List.mem_cons_of_mem _ hra.1, hra.2⟩
            · exact (ih h).imp fun ra hra => ⟨List.mem_cons_of_mem _ hra.1, hra.2⟩
          · exact (ih h).imp fun ra hra => ⟨List.mem_cons_of_mem _ hra.1, hra.2⟩
        · exact (ih h).imp fun ra hra => ⟨List.mem_cons_of_mem _ hra.1, hra.2⟩

/-- A found adjacent room is a distinct room of the same type whose
numeric room number is on the same floor and differs by exactly one. -/
theorem find_adjacent_room_spec {a : String} {rooms : RoomMap} {b : String}
    (h : find_adjacent_room a rooms = some b) :
    ∃ cur, lookupRoom rooms a = some cur ∧
      ∃ rb, (b, rb) ∈ rooms ∧ b ≠ a ∧ rb.rtype = cur.rtype ∧
        digitsVal rb.roomNumber / 100 = digitsVal cur.roomNumber / 100 ∧
        ((digitsVal rb.roomNumber : ℤ) - (digitsVal cur.roomNumber : ℤ)).natAbs = 1 := by
  simp only [find_adjacent_room] at h
  split at h
  · cases h
  · split at h
    · cases h
    · rename_i cur hcur
      rw [Option.map_eq_some'] at h
      obtain ⟨p, hfind, hb⟩ := h
      have hpred := List.find?_some hfind
      have hmem := List.mem_of_find?_eq_some hfind
      simp only [Bool.and_eq_true] at hpred
      obtain ⟨⟨hA, hB⟩, hC, hD⟩ := hpred
      refine ⟨cur, hcur, p.2, ?_, ?_, eq_of_beq hB, eq_of_beq hC, eq_of_beq hD⟩
      · rw [← hb]
        exact hmem
      · rw [← hb]
        exact bne_iff_ne.mp hA

/-- A slot scan that falls through the whole window never saw the room
occupied there. -/
theorem electiveSlotScan_none {tt : SectionTT} {rid : String} {room : Room}
    {g : Option String} {d : ℕ} :
    ∀ {l : List ℕ} {acc : List String × List (String × String)},
    electiveSlotScan tt rid room g d l acc = none → ∀ slot ∈ l, slot ∉ room.sched d := by
  intro l
  induction l with
  | nil =>
      intro acc _ slot hs
      cases hs
  | cons s0 rest ih =>
      intro acc h slot hs
      obtain ⟨exc, grp⟩ := acc
      simp only [electiveSlotScan] at h
      by_cases hmem : s0 ∈ room.sched d
      · rw [if_pos (decide_eq_true hmem)] at h
        exfalso
        split at h
        · split at h
          · split at h
            · cases h
            · cases h
          · cases h
        · cases h
      · rw [if_neg (fun hc => hmem (of_decide_eq_true hc))] at h
        rcases List.mem_cons.mp hs with rfl | htail
        · exact hmem
        · exact ih h slot htail

/-- Over a window whose grid cells are all untyped, the slot scan never
touches its accumulator: it returns none or the accumulator unchanged. -/
theorem electiveSlotScan_acc {tt : SectionTT} {rid : String} {room : Room}
    {g : Option String} {day : ℕ} :
    ∀ {l : List ℕ}, (∀ slot ∈ l, (tt day slot).type = none) →
    ∀ acc : List String × List (String × String),
    electiveSlotScan tt rid room g day l acc = none ∨
      electiveSlotScan tt rid room g day l acc = some acc := by
  intro l
  induction l with
  | nil =>
      intro _ acc
      left
      rfl
  | cons s0 rest ih =>
      intro htt acc
      obtain ⟨exc, grp⟩ := acc
      simp only [electiveSlotScan]
      by_cases hmem : s0 ∈ room.sched day
      · rw [if_pos (decide_eq_true hmem)]
        by_cases hlt : s0 < numSlots
        · rw [if_pos hlt]
          have hty : (tt day s0).type = none := htt s0 (List.mem_cons_self _ _)
          have hcond : ((tt day s0).classroom == rid && (tt day s0).type.isSome) =
              false := by
            rw [hty]
            simp
          rw [hcond]
          right
          rfl
        · rw [if_neg hlt]
          right
          rfl
      · rw [if_neg (fun hc => hmem (of_decide_eq_true hc))]
        exact ih (fun slot hs => htt slot (List.mem_cons_of_mem _ hs)) (exc, grp)

/-- Over an untyped window the elective room loop keeps an empty
accumulator, and only ever chooses a member room that was free. -/
theorem electiveRoomScan_spec {tt : SectionTT} {g : Option String}
    {sz day start dur : ℕ}
    (htt : ∀ slot ∈ (List.range dur).map (fun i => start + i), (tt day slot).type = none) :
    ∀ l : RoomMap,
      (electiveRoomScan tt g sz day start dur l ([], [])).2 = ([], []) ∧
      ∀ rid, (electiveRoomScan tt g sz day start dur l ([], [])).1 = some rid →
        ∃ r, (rid, r) ∈ l ∧ roomFree r day start dur = true := by
  intro l
  induction l with
  | nil =>
      refine ⟨rfl, fun rid h => ?_⟩
      cases h
  | cons p rest ih =>
      obtain ⟨rid0, r0⟩ := p
      simp only [electiveRoomScan]
      rcases @electiveSlotScan_acc tt rid0 r0 g day
          ((List.range dur).map (fun i => start + i)) htt ([], []) with hnone | hsome
      · rw [hnone]
        dsimp only
        by_cases hcap : (!([] : List String).contains rid0 && decide (sz ≤ r0.capacity))
            = true
        · rw [if_pos hcap]
          refine ⟨rfl, fun rid h => ?_⟩
          obtain rfl := Option.some_inj.mp h
          refine ⟨r0, List.mem_cons_self _ _, roomFree_iff.mpr fun i hi => ?_⟩
          exact electiveSlotScan_none hnone (start + i)
            (List.mem_map.mpr ⟨i, List.mem_range.mpr hi, rfl⟩)
        · rw [if_neg hcap]
          exact ⟨ih.1, fun rid h => (ih.2 rid h).imp
            fun r hr => ⟨List.mem_cons_of_mem _ hr.1, hr.2⟩⟩
      · rw [hsome]
        dsimp only
        exact ⟨ih.1, fun rid h => (ih.2 rid h).imp
          fun r hr => ⟨List.mem_cons_of_mem _ hr.1, hr.2⟩⟩

/-- The lab arm of assign_suitable_room: a single allocation, or, for an
oversized department, an adjacent pair with both rooms marked. -/
theorem assign_lab_branch {ct dept sem code : String} {day start_slot duration : ℕ}
    {store : RoomMap} {enroll : EnrollData} {tt : SectionTT} {excl : List String}
    {rid : String} {r2 : Option RoomMap}
    (hlab : (ct == "COMPUTER_LAB" || ct == "HARDWARE_LAB") = true)
    (h : assign_suitable_room ct dept sem day start_slot duration (some store) enroll tt
      code excl = (some rid, r2)) :
    (allocate_room store ct (requiredSizeFor enroll dept sem code) day start_slot duration
        excl = some rid ∧
      r2 = some (markRoomId store rid day start_slot duration)) ∨
    ((∃ info, lookupEnroll enroll (dept, sem) = some info ∧ 35 < info.total) ∧
      ∃ a b, rid = a ++ "," ++ b ∧
        pairScan store store ct day start_slot duration excl = some (a, b) ∧
        r2 = some (markRoomId (markRoomId store a day start_slot duration) b day
          start_slot duration)) := by
  simp only [assign_suitable_room] at h
  rw [hlab, if_pos rfl] at h
  rcases hlk : lookupEnroll enroll (dept, sem) with _ | info
  · rw [hlk] at h
    dsimp only at h
    rcases halloc : allocate_room store ct (requiredSizeFor enroll dept sem code) day
        start_slot duration excl with _ | rid1
    · rw [halloc] at h
      dsimp only at h
      rw [Prod.mk.injEq] at h
      exact absurd h.1 (by simp)
    · rw [halloc] at h
      dsimp only at h
      rw [Prod.mk.injEq] at h
      obtain rfl := Option.some_inj.mp h.1
      exact Or.inl ⟨rfl, h.2.symm⟩
  · rw [hlk] at h
    dsimp only at h
    cases hov : decide (35 < info.total) with
    | false =>
        rw [hov] at h
        rcases halloc : allocate_room store ct (requiredSizeFor enroll dept sem code) day
            start_slot duration excl with _ | rid1
        · rw [halloc] at h
          dsimp only at h
          rw [Prod.mk.injEq] at h
          exact absurd h.1 (by simp)
        · rw [halloc] at h
          dsimp only at h
          rw [Prod.mk.injEq] at h
          obtain rfl := Option.some_inj.mp h.1
          exact Or.inl ⟨rfl, h.2.symm⟩
    | true =>
        rw [hov] at h
        rcases hps : pairScan store store ct day start_slot duration excl with _ | ab
        · rw [hps] at h
          dsimp only at h
          rcases halloc : allocate_room store ct (requiredSizeFor enroll dept sem code)
              day start_slot duration excl with _ | rid1
          · rw [halloc] at h
            dsimp only at h
            rw [Prod.mk.injEq] at h
            exact absurd h.1 (by simp)
          · rw [halloc] at h
            dsimp only at h
            rw [Prod.mk.injEq] at h
            obtain rfl := Option.some_inj.mp h.1
            exact Or.inl ⟨rfl, h.2.symm⟩
        · obtain ⟨a, b⟩ := ab
          rw [hps] at h
          dsimp only at h
          rw [Prod.mk.injEq] at h
          refine Or.inr ⟨⟨info, rfl, of_decide_eq_true hov⟩, a, b,
            (Option.some_inj.mp h.1).symm, rfl, h.2.symm⟩

/-- On a window whose cells are untyped in the target grid, a successful
assign_suitable_room always comes back with either one free store room,
marked, or a comma pair of free store rooms, both marked. -/
theorem assign_room_spec {ct dept sem code : String} {day start_slot duration : ℕ}
    {store : RoomMap} {enroll : EnrollData} {tt : SectionTT} {excl : List String}
    {rid : String} {rooms2 : Option RoomMap}
    (hwf : wfStore store)
    (htt : ∀ i, i < duration → (tt day (start_slot + i)).type = none)
    (h : assign_suitable_room ct dept sem day start_slot duration (some store) enroll tt
      code excl = (some rid, rooms2)) :
    (∃ r, lookupRoom store rid = some r ∧ roomFree r day start_slot duration = true ∧
      rooms2 = some (markRoomId store rid day start_slot duration) ∧
      strHasChar rid ',' = false ∧ strHasChar rid '+' = false) ∨
    (∃ a b, rid = a ++ "," ++ b ∧ a ≠ b ∧
      strHasChar a ',' = false ∧ strHasChar a '+' = false ∧
      strHasChar b ',' = false ∧ strHasChar b '+' = false ∧
      (∃ ra, lookupRoom store a = some ra ∧ roomFree ra day start_slot duration = true) ∧
      (∃ rb, lookupRoom store b = some rb ∧ roomFree rb day start_slot duration = true) ∧
      rooms2 = some (markRoomId (markRoomId store a day start_slot duration) b day
        start_slot duration)) := by
  have keyfacts : ∀ {id : String} {r : Room}, (id, r) ∈ store →
      lookupRoom store id = some r ∧ strHasChar id ',' = false ∧
        strHasChar id '+' = false := by
    intro id r hm
    exact ⟨lookupRoom_of_mem hwf.1 hm, (hwf.2 _ hm).1, (hwf.2 _ hm).2⟩
  cases hlab : (ct == "COMPUTER_LAB" || ct == "HARDWARE_LAB") with
  | true =>
      rcases assign_lab_branch hlab h with ⟨halloc, hr2⟩ | ⟨hov, a, b, hab, hps, hr2⟩
      · obtain ⟨r, hm, hfree⟩ := allocate_room_spec halloc
        obtain ⟨hl, hc, hp⟩ := keyfacts hm
        exact Or.inl ⟨r, hl, hfree, hr2, hc, hp⟩
      · obtain ⟨ra, hma, htype, hfa, hadj, rb, hlrb, hfrb⟩ := pairScan_spec hps
        obtain ⟨cur, hlcur, rb2, hmb2, hba, hrest⟩ := find_adjacent_room_spec hadj
        obtain ⟨hla, hca, hpa⟩ := keyfacts hma
        obtain ⟨hcb, hpb⟩ := (hwf.2 _ (lookupRoom_mem hlrb))
        exact Or.inr ⟨a, b, hab, hba.symm, hca, hpa, hcb, hpb, ⟨ra, hla, hfa⟩,
          ⟨rb, hlrb, hfrb⟩, hr2⟩
  | false =>
      simp only [assign_suitable_room] at h
      rw [hlab, if_neg Bool.false_ne_true] at h
      cases hc2 : (ct == "LEC" || ct == "TUT" || ct == "SELF_STUDY" ||
          is_elective_course code) with
      | false =>
          rw [hc2, if_neg Bool.false_ne_true] at h
          rcases halloc : allocate_room store ct (requiredSizeFor enroll dept sem code)
              day start_slot duration excl with _ | rid1
          · rw [halloc] at h
            dsimp only at h
            rw [Prod.mk.injEq] at h
            exact absurd h.1 (by simp)
          · rw [halloc] at h
            dsimp only at h
            rw [Prod.mk.injEq] at h
            obtain rfl := Option.some_inj.mp h.1
            obtain ⟨r, hm, hfree⟩ := allocate_room_spec halloc
            obtain ⟨hl, hc, hp⟩ := keyfacts hm
            exact Or.inl ⟨r, hl, hfree, h.2.symm, hc, hp⟩
      | true =>
          rw [hc2, if_pos rfl] at h
          cases helec : is_elective_course code with
          | false =>
              rw [helec, if_neg Bool.false_ne_true] at h
              rcases halloc1 : allocate_room (lectureRoomsOf store) "LEC"
                  (requiredSizeFor enroll dept sem code) day start_slot duration excl
                  with _ | rid1
              · rw [halloc1] at h
                dsimp only at h
                rcases halloc2 : allocate_room (seaterRoomsOf store) "LEC"
                    (requiredSizeFor enroll dept sem code) day start_slot duration excl
                    with _ | rid1
                · rw [halloc2] at h
                  dsimp only at h
                  rw [Prod.mk.injEq] at h
                  exact absurd h.1 (by simp)
                · rw [halloc2] at h
                  dsimp only at h
                  rw [Prod.mk.injEq] at h
                  obtain rfl := Option.some_inj.mp h.1
                  obtain ⟨r, hm, hfree⟩ := allocate_room_spec halloc2
                  obtain ⟨hl, hc, hp⟩ := keyfacts (List.mem_filter.mp hm).1
                  exact Or.inl ⟨r, hl, hfree, h.2.symm, hc, hp⟩
              · rw [halloc1] at h
                dsimp only at h
                rw [Prod.mk.injEq] at h
                obtain rfl := Option.some_inj.mp h.1
                obtain ⟨r, hm, hfree⟩ := allocate_room_spec halloc1
                obtain ⟨hl, hc, hp⟩ := keyfacts (List.mem_filter.mp hm).1
                exact Or.inl ⟨r, hl, hfree, h.2.symm, hc, hp⟩
          | true =>
              rw [helec, if_pos rfl] at h
              have hwin : ∀ slot ∈ (List.range duration).map (fun i => start_slot + i),
                  (tt day slot).type = none := by
                intro slot hs
                obtain ⟨i, hi, rfl⟩ := List.mem_map.mp hs
                exact htt i (List.mem_range.mp hi)
              have hscan := @electiveRoomScan_spec tt (get_elective_group code)
                (requiredSizeFor enroll dept sem code) day start_slot duration hwin
                (sortByUsage (lectureRoomsOf store) ++ sortByUsage (seaterRoomsOf store))
              rcases hEpair : electiveRoomScan tt (get_elective_group code)
                  (requiredSizeFor enroll dept sem code) day start_slot duration
                  (sortByUsage (lectureRoomsOf store) ++ sortByUsage (seaterRoomsOf store))
                  ([], []) with ⟨res, acc⟩
              have hacc : acc = ([], []) := by
                rw [hEpair] at hscan
                exact hscan.1
              subst hacc
              rw [hEpair] at h
              have memStore : ∀ {id : String} {r : Room},
                  (id, r) ∈ sortByUsage (lectureRoomsOf store) ++
                    sortByUsage (seaterRoomsOf store) → (id, r) ∈ store := by
                intro id r hm
                rcases List.mem_append.mp hm with h1 | h1
                · exact (List.mem_filter.mp (List.mem_mergeSort.mp h1)).1
                · exact (List.mem_filter.mp (List.mem_mergeSort.mp h1)).1
              cases res with
              | some rid1 =>
                  dsimp only at h
                  rw [Prod.mk.injEq] at h
                  obtain rfl := Option.some_inj.mp h.1
                  obtain ⟨r, hm, hfree⟩ := hscan.2 rid1 (by rw [hEpair])
                  obtain ⟨hl, hc, hp⟩ := keyfacts (memStore hm)
                  exact Or.inl ⟨r, hl, hfree, h.2.symm, hc, hp⟩
              | none =>
                  dsimp only at h
                  rw [show dictGet ([] : List (String × String)) code = none from rfl]
                    at h
                  dsimp only at h
                  rcases halloc1 : allocate_room (lectureRoomsOf store) "LEC"
                      (requiredSizeFor enroll dept sem code) day start_slot duration []
                      with _ | rid1
                  · rw [halloc1] at h
                    dsimp only at h
                    rcases halloc2 : allocate_room (seaterRoomsOf store) "LEC"
                        (requiredSizeFor enroll dept sem code) day start_slot duration []
                        with _ | rid1
                    · rw [halloc2] at h
                      dsimp only at h
                      rw [Prod.mk.injEq] at h
                      exact absurd h.1 (by simp)
                    · rw [halloc2] at h
                      dsimp only at h
                      rw [Prod.mk.injEq] at h
                      obtain rfl := Option.some_inj.mp h.1
                      obtain ⟨r, hm, hfree⟩ := allocate_room_spec halloc2
                      obtain ⟨hl, hc, hp⟩ := keyfacts (List.mem_filter.mp hm).1
                      exact Or.inl ⟨r, hl, hfree, h.2.symm, hc, hp⟩
                  · rw [halloc1] at h
                    dsimp only at h
                    rw [Prod.mk.injEq] at h
                    obtain rfl := Option.some_inj.mp h.1
                    obtain ⟨r, hm, hfree⟩ := allocate_room_spec halloc1
                    obtain ⟨hl, hc, hp⟩ := keyfacts (List.mem_filter.mp hm).1
                    exact Or.inl ⟨r, hl, hfree, h.2.symm, hc, hp⟩

/-! ### The room-conflict invariant -/

/-- Windows recorded in the grids are covered by the store's occupied
sets: every placed session start, for every store room its classroom
string names, has its whole window in that room's register for the day. -/
def roomCoverage (store : RoomMap) (secs : List Sec) : Prop :=
  ∀ (j : ℕ) (sec : Sec), secs[j]? = some sec → ∀ (d a : ℕ) (kd : Kind),
    (sec.tt d a).type = some kd → (sec.tt d a).code ≠ "" →
    ∀ id ∈ roomIdsOf (sec.tt d a).classroom, ∀ r, lookupRoom store id = some r →
    ∀ i, i < kindLen kd → a + i ∈ r.sched d

/-- Two distinct placed sessions sharing a store room on the same day
have disjoint slot windows. -/
def roomDisjoint (store : RoomMap) (secs : List Sec) : Prop :=
  ∀ (j1 j2 : ℕ) (sec1 sec2 : Sec), secs[j1]? = some sec1 → secs[j2]? = some sec2 →
    ∀ (d a1 a2 : ℕ) (k1 k2 : Kind),
    (sec1.tt d a1).type = some k1 → (sec1.tt d a1).code ≠ "" →
    (sec2.tt d a2).type = some k2 → (sec2.tt d a2).code ≠ "" →
    ¬(j1 = j2 ∧ a1 = a2) →
    (∃ id r, id ∈ roomIdsOf (sec1.tt d a1).classroom ∧
      id ∈ roomIdsOf (sec2.tt d a2).classroom ∧ lookupRoom store id = some r) →
    a1 + kindLen k1 ≤ a2 ∨ a2 + kindLen k2 ≤ a1

/-- The run invariant: whenever the store exists it is well-formed, and
coverage and disjointness hold for the sections built so far. -/
def roomsInv (s : GState) : Prop :=
  ∀ store, s.rooms = some store →
    wfStore store ∧ roomCoverage store s.secs ∧ roomDisjoint store s.secs

/-- A cell of a freshly committed grid is the new session's start cell or
an untouched cell of the old grid (tail cells carry an empty code). -/
theorem writeSession_cases {tt : SectionTT} {day start_slot : ℕ} {kd : Kind}
    {code name fac room : String} {d a : ℕ}
    (hcode : (writeSession tt day start_slot kd code name fac room d a).code ≠ "") :
    (d = day ∧ a = start_slot ∧
      writeSession tt day start_slot kd code name fac room d a =
        ⟨some kd, code, name, fac, room⟩) ∨
    writeSession tt day start_slot kd code name fac room d a = tt d a := by
  by_cases hd : d = day
  · subst hd
    by_cases hin : start_slot ≤ a ∧ a < start_slot + kindLen kd
    · by_cases has : a = start_slot
      · subst has
        exact Or.inl ⟨rfl, rfl, writeSession_start tt d a kd code name fac room⟩
      · rw [writeSession_tail tt d start_slot kd code name fac room a hin.1 hin.2 has]
          at hcode
        exact absurd rfl hcode
    · exact Or.inr (writeSession_out tt d start_slot kd code name fac room a hin)
  · exact Or.inr (writeSession_other_day tt day start_slot kd code name fac room d a hd)

/-- Case summary of one step, keeping the room assignment: either a fresh
section is appended, or one session is committed at a window untyped in
that section's grid, its cell recording the room string assigned by
assign_suitable_room on the pre-state store (display form for labs). -/
theorem step_cases2 {enroll : EnrollData} {meals : MealSched} {s s2 : GState}
    (h : Step enroll meals s s2) :
    (∃ dept sem, s2 = ⟨s.secs ++ [⟨dept, sem, emptyTT⟩], s.instr, s.rooms⟩) ∨
    (∃ (k : ℕ) (sec : Sec) (kd : Kind) (c : Course) (day start_slot : ℕ)
        (rid ct : String) (rooms2 : Option RoomMap),
      s.secs[k]? = some sec ∧
      s2 = ⟨s.secs.set k ⟨sec.dept, sec.sem,
          writeSession sec.tt day start_slot kd c.code c.name (schedInstructor c)
            (if kd = Kind.LAB then display_room rid else rid)⟩,
        addInstr s.instr (schedInstructor c) day start_slot (kindLen kd), rooms2⟩ ∧
      (∀ j, j < kindLen kd → (sec.tt day (start_slot + j)).type = none) ∧
      assign_suitable_room ct sec.dept sec.sem day start_slot (kindLen kd) s.rooms enroll
        sec.tt c.code [] = (some rid, rooms2)) := by
  cases h with
  | newSection dept sem => exact Or.inl ⟨dept, sem, rfl⟩
  | placeLec k sec c day start_slot roomId rooms2 hk hday hstart hspace hload havail
      hroom =>
      refine Or.inr ⟨k, sec, .LEC, c, day, start_slot, roomId, "LEC", rooms2, hk, ?_,
        fun j hj => (lecAvail_spec havail j hj).2.1, hroom⟩
      simp
  | placeTut k sec c day staleStart start_slot roomId rooms2 hk hday hspace hload hstart
      havail hroom =>
      refine Or.inr ⟨k, sec, .TUT, c, day, start_slot, roomId, "TUT", rooms2, hk, ?_,
        fun j hj => (plainAvail_spec havail j hj).2.1, hroom⟩
      simp
  | placeLab k sec c day start_slot roomId rooms2 hk hday hmem hroom =>
      obtain ⟨hb, hall⟩ := find_available_spec (by decide) hmem
      refine Or.inr ⟨k, sec, .LAB, c, day, start_slot, roomId, determine_room_type c,
        rooms2, hk, ?_, fun j hj => (hall j hj).2.1, hroom⟩
      simp
  | placeSS k sec c day start_slot roomId rooms2 hk hday hstart havail hroom =>
      refine Or.inr ⟨k, sec, .SS, c, day, start_slot, roomId, "SELF_STUDY", rooms2, hk,
        ?_, fun j hj => (plainAvail_spec havail j hj).2.1, hroom⟩
      simp

/-- A free window and a covered window on the same room and day never
overlap. -/
theorem window_clash {r : Room} {day start_slot : ℕ} {kd : Kind} {a2 : ℕ} {k2 : Kind}
    (hfreeR : roomFree r day start_slot (kindLen kd) = true)
    (hcovO : ∀ i, i < kindLen k2 → a2 + i ∈ r.sched day) :
    start_slot + kindLen kd ≤ a2 ∨ a2 + kindLen k2 ≤ start_slot := by
  by_contra hcon
  push_neg at hcon
  obtain ⟨h1, h2⟩ := hcon
  have hfr := roomFree_iff.mp hfreeR
  by_cases hle : start_slot ≤ a2
  · have hin := hcovO 0 (kindLen_pos k2)
    rw [Nat.add_zero] at hin
    have hout := hfr (a2 - start_slot) (by omega)
    rw [show start_slot + (a2 - start_slot) = a2 from by omega] at hout
    exact hout hin
  · have hin := hcovO (start_slot - a2) (by omega)
    rw [show a2 + (start_slot - a2) = start_slot from by omega] at hin
    have hout := hfr 0 (kindLen_pos kd)
    rw [Nat.add_zero] at hout
    exact hout hin

/-- Committing one session at a window free in each of its rooms, with
exactly those rooms' registers extended, preserves coverage and
disjointness. -/
theorem rooms_preserve {store store2 : RoomMap} {secs : List Sec} {k : ℕ} {sec : Sec}
    {kd : Kind} {cr : String} {day start_slot : ℕ} {code name fac : String}
    (hk : secs[k]? = some sec)
    (hcov : roomCoverage store secs) (hdisj : roomDisjoint store secs)
    (hfree : ∀ j, j < kindLen kd → (sec.tt day (start_slot + j)).type = none)
    (F1 : ∀ x r2, lookupRoom store2 x = some r2 → ∃ r, lookupRoom store x = some r ∧
      ∀ d2 t, t ∈ r.sched d2 → t ∈ r2.sched d2)
    (F3a : ∀ id ∈ roomIdsOf cr, ∀ r, lookupRoom store id = some r →
      roomFree r day start_slot (kindLen kd) = true)
    (F3b : ∀ id ∈ roomIdsOf cr, ∀ r2, lookupRoom store2 id = some r2 →
      ∀ i, i < kindLen kd → start_slot + i ∈ r2.sched day) :
    roomCoverage store2 (secs.set k ⟨sec.dept, sec.sem,
        writeSession sec.tt day start_slot kd code name fac cr⟩) ∧
    roomDisjoint store2 (secs.set k ⟨sec.dept, sec.sem,
        writeSession sec.tt day start_slot kd code name fac cr⟩) := by
  constructor
  · intro j secj hj d a kd2 hty hcode id hid r2 hlook2 i hi
    rcases lookup_set hj with ⟨hkj, rfl⟩ | ⟨hkj, hold⟩
    · dsimp only at hty hcode hid
      rcases writeSession_cases hcode with ⟨rfl, rfl, hcell⟩ | hcell
      · rw [hcell] at hty hid
        have hkd : kd = kd2 := Option.some_inj.mp hty
        subst hkd
        exact F3b id hid r2 hlook2 i hi
      · rw [hcell] at hty hcode hid
        obtain ⟨r, hr, hmono⟩ := F1 id r2 hlook2
        exact hmono d _ (hcov k sec hk d a kd2 hty hcode id hid r hr i hi)
    · obtain ⟨r, hr, hmono⟩ := F1 id r2 hlook2
      exact hmono d _ (hcov j secj hold d a kd2 hty hcode id hid r hr i hi)
  · intro j1 j2 sec1 sec2 hj1 hj2 d a1 a2 k1 k2 hty1 hc1 hty2 hc2 hne hsh
    obtain ⟨id, r2, hid1, hid2, hlook2⟩ := hsh
    obtain ⟨r, hlookr, hmono⟩ := F1 id r2 hlook2
    rcases lookup_set hj1 with ⟨hk1, rfl⟩ | ⟨hk1, hold1⟩
    · dsimp only at hty1 hc1 hid1
      rcases writeSession_cases hc1 with ⟨rfl, rfl, hcell1⟩ | hcell1
      · rw [hcell1] at hty1 hid1
        have hkd1 : kd = k1 := Option.some_inj.mp hty1
        subst hkd1
        have hfreeR := F3a id hid1 r hlookr
        rcases lookup_set hj2 with ⟨hk2, rfl⟩ | ⟨hk2, hold2⟩
        · dsimp only at hty2 hc2 hid2
          rcases writeSession_cases hc2 with ⟨hd2, rfl, hcell2⟩ | hcell2
          · exact absurd ⟨hk1.symm.trans hk2, rfl⟩ hne
          · rw [hcell2] at hty2 hc2 hid2
            exact window_clash hfreeR
              (hcov k sec hk d a2 k2 hty2 hc2 id hid2 r hlookr)
        · rw [hcell1] at hc1
          exact window_clash hfreeR
            (hcov j2 sec2 hold2 d a2 k2 hty2 hc2 id hid2 r hlookr)
      · rw [hcell1] at hty1 hc1 hid1
        rcases lookup_set hj2 with ⟨hk2, rfl⟩ | ⟨hk2, hold2⟩
        · dsimp only at hty2 hc2 hid2
          rcases writeSession_cases hc2 with ⟨rfl, rfl, hcell2⟩ | hcell2
          · rw [hcell2] at hty2 hid2
            have hkd2 : kd = k2 := Option.some_inj.mp hty2
            subst hkd2
            have hfreeR := F3a id hid2 r hlookr
            exact (window_clash hfreeR
              (hcov k sec hk d a1 k1 hty1 hc1 id hid1 r hlookr)).symm
          · rw [hcell2] at hty2 hc2 hid2
            refine hdisj k k sec sec hk hk d a1 a2 k1 k2 hty1 hc1 hty2 hc2 ?_
              ⟨id, r, hid1, hid2, hlookr⟩
            intro hcc
            exact hne ⟨hk1.symm.trans hk2, hcc.2⟩
        · refine hdisj k j2 sec sec2 hk hold2 d a1 a2 k1 k2 hty1 hc1 hty2 hc2 ?_
            ⟨id, r, hid1, hid2, hlookr⟩
          intro hcc
          exact absurd hcc.1 hk2
    · rcases lookup_set hj2 with ⟨hk2, rfl⟩ | ⟨hk2, hold2⟩
      · dsimp only at hty2 hc2 hid2
        rcases writeSession_cases hc2 with ⟨rfl, rfl, hcell2⟩ | hcell2
        · rw [hcell2] at hty2 hid2
          have hkd2 : kd = k2 := Option.some_inj.mp hty2
          subst hkd2
          have hfreeR := F3a id hid2 r hlookr
          exact (window_clash hfreeR
            (hcov j1 sec1 hold1 d a1 k1 hty1 hc1 id hid1 r hlookr)).symm
        · rw [hcell2] at hty2 hc2 hid2
          refine hdisj j1 k sec1 sec hold1 hk d a1 a2 k1 k2 hty1 hc1 hty2 hc2 ?_
            ⟨id, r, hid1, hid2, hlookr⟩
          intro hcc
          exact absurd hcc.1.symm hk1
      · exact hdisj j1 j2 sec1 sec2 hold1 hold2 d a1 a2 k1 k2 hty1 hc1 hty2 hc2 hne
          ⟨id, r, hid1, hid2, hlookr⟩

/-- Membership in the register of a conditionally marked room. -/
theorem condMark_sub (r : Room) (p : Prop) [Decidable p] (day s dur d2 : ℕ) {t : ℕ}
    (h : t ∈ r.sched d2) : t ∈ (if p then markSched r day s dur else r).sched d2 := by
  by_cases hp : p
  · rw [if_pos hp]
    exact markSched_sched_sub r day s dur d2 h
  · rw [if_neg hp]
    exact h

/-- The room-conflict invariant of every run whose imported room store is
well-formed: the store stays well-formed, every placed window is covered
by its rooms' registers, and sessions sharing a store room on a day never
overlap. -/
theorem rooms_invariant {enroll : EnrollData} {meals : MealSched}
    {rooms0 : Option RoomMap}
    (hwf0 : ∀ st, rooms0 = some st → wfStore st) :
    ∀ s, Reachable enroll meals rooms0 s → roomsInv s := by
  refine reachable_invariant roomsInv ?_ ?_
  · intro store hst
    refine ⟨hwf0 store hst, ?_, ?_⟩
    · intro j sec hj
      simp [initState] at hj
    · intro j1 j2 sec1 sec2 hj1
      simp [initState] at hj1
  · intro s s2 hstep ih
    rcases step_cases2 hstep with ⟨dept, sem, rfl⟩ | ⟨k, sec, kd, c, day, start_slot,
      rid, ct, rooms2, hk, rfl, hfree, hroom⟩
    · intro store hst
      obtain ⟨hwf, hcov, hdisj⟩ := ih store hst
      refine ⟨hwf, ?_, ?_⟩
      · intro j secj hj d a kd2 hty hcode id hid r hr i hi
        rcases lookup_append hj with hold | rfl
        · exact hcov j secj hold d a kd2 hty hcode id hid r hr i hi
        · cases hty
      · intro j1 j2 sec1 sec2 hj1 hj2 d a1 a2 k1 k2 hty1 hc1 hty2 hc2 hne hsh
        rcases lookup_append hj1 with hold1 | rfl
        · rcases lookup_append hj2 with hold2 | rfl
          · exact hdisj j1 j2 sec1 sec2 hold1 hold2 d a1 a2 k1 k2 hty1 hc1 hty2 hc2
              hne hsh
          · cases hty2
        · cases hty1
    · intro store2 hst2
      rcases hsr : s.rooms with _ | store
      · rw [hsr] at hroom
        rw [show assign_suitable_room ct sec.dept sec.sem day start_slot (kindLen kd)
            none enroll sec.tt c.code [] = (some "DEFAULT_ROOM", none) from rfl] at hroom
        rw [Prod.mk.injEq] at hroom
        rw [← hroom.2] at hst2
        cases hst2
      · rw [hsr] at hroom
        obtain ⟨hwf, hcov, hdisj⟩ := ih store hsr
        rcases assign_room_spec hwf hfree hroom with
          ⟨r, hlook, hfr, hr2, hcomma1, hplus1⟩ |
          ⟨a, b, hab, hne_ab, hac, hap, hbc, hbp, ⟨ra, hlra, hfra⟩, ⟨rb, hlrb, hfrb⟩, hr2⟩
        · rw [hr2] at hst2
          obtain rfl := Option.some_inj.mp hst2
          have hids : roomIdsOf (if kd = Kind.LAB then display_room rid else rid) =
              [rid] := by
            rw [show (if kd = Kind.LAB then display_room rid else rid) = rid from by
              cases kd <;> simp [display_room_id hcomma1]]
            exact roomIdsOf_single hplus1
          have F1 : ∀ x r2, lookupRoom (markRoomId store rid day start_slot (kindLen kd))
              x = some r2 → ∃ r0, lookupRoom store x = some r0 ∧
                ∀ d2 t, t ∈ r0.sched d2 → t ∈ r2.sched d2 := by
            intro x r2 hx
            rw [lookupRoom_mark] at hx
            rcases hlx : lookupRoom store x with _ | r0
            · rw [hlx] at hx
              cases hx
            · rw [hlx] at hx
              refine ⟨r0, rfl, ?_⟩
              obtain rfl := Option.some_inj.mp hx
              intro d2 t ht
              exact condMark_sub r0 (x = rid) day start_slot (kindLen kd) d2 ht
          have F3a : ∀ id ∈ roomIdsOf (if kd = Kind.LAB then display_room rid else rid),
              ∀ r0, lookupRoom store id = some r0 →
              roomFree r0 day start_slot (kindLen kd) = true := by
            intro id hidm r0 hl0
            rw [hids] at hidm
            obtain rfl := List.mem_singleton.mp hidm
            rw [hlook] at hl0
            obtain rfl := Option.some_inj.mp hl0
            exact hfr
          have F3b : ∀ id ∈ roomIdsOf (if kd = Kind.LAB then display_room rid else rid),
              ∀ r2, lookupRoom (markRoomId store rid day start_slot (kindLen kd)) id =
                some r2 → ∀ i, i < kindLen kd → start_slot + i ∈ r2.sched day := by
            intro id hidm r2 hx i hi
            rw [hids] at hidm
            obtain rfl := List.mem_singleton.mp hidm
            rw [lookupRoom_mark, hlook] at hx
            obtain rfl := Option.some_inj.mp hx
            dsimp only
            rw [if_pos rfl]
            exact markSched_mem r day start_slot (kindLen kd) i hi
          obtain ⟨hcov2, hdisj2⟩ := rooms_preserve hk hcov hdisj hfree F1 F3a F3b
          exact ⟨wfStore_mark hwf rid day start_slot (kindLen kd), hcov2, hdisj2⟩
        · rw [hr2] at hst2
          obtain rfl := Option.some_inj.mp hst2
          subst hab
          have F1 : ∀ x r2, lookupRoom (markRoomId (markRoomId store a day start_slot
              (kindLen kd)) b day start_slot (kindLen kd)) x = some r2 →
              ∃ r0, lookupRoom store x = some r0 ∧
                ∀ d2 t, t ∈ r0.sched d2 → t ∈ r2.sched d2 := by
            intro x r2 hx
            rw [lookupRoom_mark, lookupRoom_mark] at hx
            rcases hlx : lookupRoom store x with _ | r0
            · rw [hlx] at hx
              cases hx
            · rw [hlx] at hx
              refine ⟨r0, rfl, ?_⟩
              obtain rfl := Option.some_inj.mp hx
              intro d2 t ht
              exact condMark_sub _ (x = b) day start_slot (kindLen kd) d2
                (condMark_sub r0 (x = a) day start_slot (kindLen kd) d2 ht)
          by_cases hkdl : kd = Kind.LAB
          · have hids : roomIdsOf (if kd = Kind.LAB then display_room (a ++ "," ++ b)
                else (a ++ "," ++ b)) = [a, b] := by
              rw [if_pos hkdl, display_room_pair hac hbc]
              exact roomIdsOf_pair hap hbp
            have F3a : ∀ id ∈ roomIdsOf (if kd = Kind.LAB then
                display_room (a ++ "," ++ b) else (a ++ "," ++ b)),
                ∀ r0, lookupRoom store id = some r0 →
                roomFree r0 day start_slot (kindLen kd) = true := by
              intro id hidm r0 hl0
              rw [hids] at hidm
              rcases List.mem_cons.mp hidm with rfl | hidm2
              · rw [hlra] at hl0
                obtain rfl := Option.some_inj.mp hl0
                exact hfra
              · obtain rfl := List.mem_singleton.mp hidm2
                rw [hlrb] at hl0
                obtain rfl := Option.some_inj.mp hl0
                exact hfrb
            have F3b : ∀ id ∈ roomIdsOf (if kd = Kind.LAB then
                display_room (a ++ "," ++ b) else (a ++ "," ++ b)),
                ∀ r2, lookupRoom (markRoomId (markRoomId store a day start_slot
                  (kindLen kd)) b day start_slot (kindLen kd)) id = some r2 →
                ∀ i, i < kindLen kd → start_slot + i ∈ r2.sched day := by
              intro id hidm r2 hx i hi
              rw [hids] at hidm
              rw [lookupRoom_mark, lookupRoom_mark] at hx
              rcases List.mem_cons.mp hidm with rfl | hidm2
              · rw [hlra] at hx
                obtain rfl := Option.some_inj.mp hx
                dsimp only
                rw [if_neg hne_ab, if_pos rfl]
                exact markSched_mem ra day start_slot (kindLen kd) i hi
              · obtain rfl := List.mem_singleton.mp hidm2
                rw [hlrb] at hx
                obtain rfl := Option.some_inj.mp hx
                dsimp only
                rw [if_pos rfl, if_neg (Ne.symm hne_ab)]
                exact markSched_mem rb day start_slot (kindLen kd) i hi
            obtain ⟨hcov2, hdisj2⟩ := rooms_preserve hk hcov hdisj hfree F1 F3a F3b
            exact ⟨wfStore_mark (wfStore_mark hwf a day start_slot (kindLen kd)) b day
              start_slot (kindLen kd), hcov2, hdisj2⟩
          · have hids : roomIdsOf (if kd = Kind.LAB then display_room (a ++ "," ++ b)
                else (a ++ "," ++ b)) = [a ++ "," ++ b] := by
              rw [if_neg hkdl]
              exact roomIdsOf_comma hap hbp
            have hnone : lookupRoom store (a ++ "," ++ b) = none :=
              lookupRoom_none_comma hwf (strHasChar_middle a "," b (by decide))
            have F3a : ∀ id ∈ roomIdsOf (if kd = Kind.LAB then
                display_room (a ++ "," ++ b) else (a ++ "," ++ b)),
                ∀ r0, lookupRoom store id = some r0 →
                roomFree r0 day start_slot (kindLen kd) = true := by
              intro id hidm r0 hl0
              rw [hids] at hidm
              obtain rfl := List.mem_singleton.mp hidm
              rw [hnone] at hl0
              cases hl0
            have F3b : ∀ id ∈ roomIdsOf (if kd = Kind.LAB then
                display_room (a ++ "," ++ b) else (a ++ "," ++ b)),
                ∀ r2, lookupRoom (markRoomId (markRoomId store a day start_slot
                  (kindLen kd)) b day start_slot (kindLen kd)) id = some r2 →
                ∀ i, i < kindLen kd → start_slot + i ∈ r2.sched day := by
              intro id hidm r2 hx i hi
              rw [hids] at hidm
              obtain rfl := List.mem_singleton.mp hidm
              rw [lookupRoom_mark, lookupRoom_mark, hnone] at hx
              cases hx
            obtain ⟨hcov2, hdisj2⟩ := rooms_preserve hk hcov hdisj hfree F1 F3a F3b
            exact ⟨wfStore_mark (wfStore_mark hwf a day start_slot (kindLen kd)) b day
              start_slot (kindLen kd), hcov2, hdisj2⟩

/-! ### A run with a room inventory: two lectures sharing one room -/

/-- One lecture room; the store of a run whose two placed lectures both
receive it, at slots 0-2 and 4-6 of day 0. -/
def roomR : Room := ⟨60, "LECTURE_ROOM", "101", fun _ => ∅⟩

def storeR : RoomMap := [("R1", roomR)]

def storeR1 : RoomMap := markRoomId storeR "R1" 0 0 3

def storeR2 : RoomMap := markRoomId storeR1 "R1" 0 4 3

def ttR1 : SectionTT := writeSession emptyTT 0 0 .LEC "CS301" "IntroX" "Prof" "R1"

def ttR2 : SectionTT := writeSession ttR1 0 4 .LEC "CS302" "IntroY" "Prof" "R1"

def stateR0 : GState := initState (some storeR)

def stateR1 : GState := ⟨[⟨"CS", "4", emptyTT⟩], reg0, some storeR⟩

def stateR2 : GState := ⟨[⟨"CS", "4", ttR1⟩], reg1, some storeR1⟩

def stateR3 : GState := ⟨[⟨"CS", "4", ttR2⟩], reg2, some storeR2⟩

theorem stepR01 : Step enrollA mealsA stateR0 stateR1 :=
  Step.newSection stateR0 "CS" "4"

theorem stepR12 : Step enrollA mealsA stateR1 stateR2 :=
  Step.placeLec stateR1 0 ⟨"CS", "4", emptyTT⟩ courseX 0 0 "R1" (some storeR1) rfl
    (by decide) (by decide) (by decide) (by decide) (by decide) rfl

theorem stepR23 : Step enrollA mealsA stateR2 stateR3 :=
  Step.placeLec stateR2 0 ⟨"CS", "4", ttR1⟩ courseY 0 4 "R1" (some storeR2) rfl
    (by decide) (by decide) (by decide) (by decide) (by decide) rfl

theorem reachR3 : Reachable enrollA mealsA (some storeR) stateR3 :=
  ((Relation.ReflTransGen.refl.tail stepR01).tail stepR12).tail stepR23

/-- C3: in every generation run whose imported room inventory is
well-formed (distinct ids free of the ',' and '+' separators), room use
is conflict-free: two distinct placed sessions whose classroom strings
share a room of the store have, on any day, disjoint slot windows — no
slot of any room is covered twice, across all sections. This holds
outright: the elective group-room sharing allowance is never exercised,
because rooms are assigned while the window is still untyped in the
section grid, so the group dictionary of the scan stays empty. -/
theorem C3_room_conflict_free {enroll : EnrollData} {meals : MealSched}
    {rooms0 : Option RoomMap} {s : GState}
    (hwf0 : ∀ st, rooms0 = some st → wfStore st)
    (hreach : Reachable enroll meals rooms0 s)
    {store : RoomMap} (hst : s.rooms = some store)
    {j1 j2 : ℕ} {sec1 sec2 : Sec}
    (hj1 : s.secs[j1]? = some sec1) (hj2 : s.secs[j2]? = some sec2)
    {d a1 a2 : ℕ} {k1 k2 : Kind}
    (hty1 : (sec1.tt d a1).type = some k1) (hc1 : (sec1.tt d a1).code ≠ "")
    (hty2 : (sec2.tt d a2).type = some k2) (hc2 : (sec2.tt d a2).code ≠ "")
    (hne : ¬(j1 = j2 ∧ a1 = a2))
    (hshare : ∃ id r, id ∈ roomIdsOf ((sec1.tt d a1).classroom) ∧
      id ∈ roomIdsOf ((sec2.tt d a2).classroom) ∧ lookupRoom store id = some r) :
    a1 + kindLen k1 ≤ a2 ∨ a2 + kindLen k2 ≤ a1 :=
  (rooms_invariant hwf0 s hreach store hst).2.2 j1 j2 sec1 sec2 hj1 hj2 d a1 a2 k1 k2
    hty1 hc1 hty2 hc2 hne hshare

theorem C3_room_conflict_free_witness :
    (0 : ℕ) + kindLen Kind.LEC ≤ 4 ∨ (4 : ℕ) + kindLen Kind.LEC ≤ 0 :=
  @C3_room_conflict_free enrollA mealsA (some storeR) stateR3
    (fun st h => by
      obtain rfl := Option.some_inj.mp h
      exact ⟨by decide, by decide⟩)
    reachR3 storeR2 rfl 0 0 ⟨"CS", "4", ttR2⟩ ⟨"CS", "4", ttR2⟩ rfl rfl 0 0 4 Kind.LEC
    Kind.LEC (by decide) (by decide) (by decide) (by decide) (by decide)
    ⟨"R1", markSched (markSched roomR 0 0 3) 0 4 3, by decide, by decide, rfl⟩

/-! ### Paired lab rooms -/

/-- C7: whenever lab allocation returns a paired id (a comma in the
returned room string), the department's enrollment total exceeded 35, the
two parts are store rooms of the same type whose numeric room numbers lie
on the same floor and differ by exactly one, and both rooms' occupied
sets for that day gain every covered slot of the session. -/
theorem C7_paired_lab_rooms {ct dept sem code : String} {day start_slot duration : ℕ}
    {store : RoomMap} {enroll : EnrollData} {tt : SectionTT} {excl : List String}
    {rid : String} {r2 : Option RoomMap}
    (hwf : wfStore store)
    (hlab : (ct == "COMPUTER_LAB" || ct == "HARDWARE_LAB") = true)
    (h : assign_suitable_room ct dept sem day start_slot duration (some store) enroll tt
      code excl = (some rid, r2))
    (hcomma : strHasChar rid ',' = true) :
    (∃ info, lookupEnroll enroll (dept, sem) = some info ∧ 35 < info.total) ∧
    ∃ a b ra rb, rid = a ++ "," ++ b ∧
      lookupRoom store a = some ra ∧ lookupRoom store b = some rb ∧
      rb.rtype = ra.rtype ∧
      digitsVal rb.roomNumber / 100 = digitsVal ra.roomNumber / 100 ∧
      ((digitsVal rb.roomNumber : ℤ) - (digitsVal ra.roomNumber : ℤ)).natAbs = 1 ∧
      ∃ store2, r2 = some store2 ∧
        store2 = markRoomId (markRoomId store a day start_slot duration) b day
          start_slot duration ∧
        ∃ ra2 rb2, lookupRoom store2 a = some ra2 ∧ lookupRoom store2 b = some rb2 ∧
          (∀ i, i < duration → start_slot + i ∈ ra2.sched day) ∧
          (∀ i, i < duration → start_slot + i ∈ rb2.sched day) := by
  rcases assign_lab_branch hlab h with ⟨halloc, hr2⟩ | ⟨hov, a, b, hab, hps, hr2⟩
  · obtain ⟨r, hm, _⟩ := allocate_room_spec halloc
    have hfc := (hwf.2 _ hm).1
    rw [hcomma] at hfc
    cases hfc
  · obtain ⟨ra0, hma, htype, hfa, hadj, rb0, hlrb, hfrb⟩ := pairScan_spec hps
    obtain ⟨cur, hlcur, rbx, hmbx, hba, hrty, hfloor, hdiff⟩ :=
      find_adjacent_room_spec hadj
    have hla : lookupRoom store a = some ra0 := lookupRoom_of_mem hwf.1 hma
    have hcura : cur = ra0 := Option.some_inj.mp (hlcur.symm.trans hla)
    have hlbx : lookupRoom store b = some rbx := lookupRoom_of_mem hwf.1 hmbx
    have hrbeq : rb0 = rbx := Option.some_inj.mp (hlrb.symm.trans hlbx)
    have hla2 : lookupRoom (markRoomId (markRoomId store a day start_slot duration) b day
        start_slot duration) a = some (markSched ra0 day start_slot duration) := by
      rw [lookupRoom_mark, lookupRoom_mark, hla]
      simp [Ne.symm hba]
    have hlb2 : lookupRoom (markRoomId (markRoomId store a day start_slot duration) b day
        start_slot duration) b = some (markSched rb0 day start_slot duration) := by
      rw [lookupRoom_mark, lookupRoom_mark, hlrb]
      simp [hba]
    refine ⟨hov, a, b, ra0, rb0, hab, hla, hlrb, ?_, ?_, ?_,
      markRoomId (markRoomId store a day start_slot duration) b day start_slot duration,
      hr2, rfl, markSched ra0 day start_slot duration, markSched rb0 day start_slot
        duration, hla2, hlb2, fun i hi => markSched_mem ra0 day start_slot duration i hi,
      fun i hi => markSched_mem rb0 day start_slot duration i hi⟩
    · rw [hrbeq, ← hcura]
      exact hrty
    · rw [hrbeq, ← hcura]
      exact hfloor
    · rw [hrbeq, ← hcura]
      exact hdiff

/-- Two adjacent computer labs and an oversized department. -/
def roomL1 : Room := ⟨40, "COMPUTER_LAB", "201", fun _ => ∅⟩

def roomL2 : Room := ⟨40, "COMPUTER_LAB", "202", fun _ => ∅⟩

def storeL : RoomMap := [("R1", roomL1), ("R2", roomL2)]

def enrollL : EnrollData := [(("CS", "4"), ⟨70, 2, 35⟩)]

theorem C7_paired_lab_rooms_witness :
    (∃ info, lookupEnroll enrollL ("CS", "4") = some info ∧ 35 < info.total) ∧
    ∃ a b ra rb, ("R1,R2" : String) = a ++ "," ++ b ∧
      lookupRoom storeL a = some ra ∧ lookupRoom storeL b = some rb ∧
      rb.rtype = ra.rtype ∧
      digitsVal rb.roomNumber / 100 = digitsVal ra.roomNumber / 100 ∧
      ((digitsVal rb.roomNumber : ℤ) - (digitsVal ra.roomNumber : ℤ)).natAbs = 1 ∧
      ∃ store2, some (markRoomId (markRoomId storeL "R1" 0 0 4) "R2" 0 0 4) =
          some store2 ∧
        store2 = markRoomId (markRoomId storeL a 0 0 4) b 0 0 4 ∧
        ∃ ra2 rb2, lookupRoom store2 a = some ra2 ∧ lookupRoom store2 b = some rb2 ∧
          (∀ i, i < 4 → (0 : ℕ) + i ∈ ra2.sched 0) ∧
          (∀ i, i < 4 → (0 : ℕ) + i ∈ rb2.sched 0) :=
  @C7_paired_lab_rooms "COMPUTER_LAB" "CS" "4" "CS303" 0 0 4 storeL enrollL emptyTT []
    "R1,R2" (some (markRoomId (markRoomId storeL "R1" 0 0 4) "R2" 0 0 4))
    ⟨by decide, by decide⟩ (by decide) rfl (by decide)

/-! ### The elective group-room reuse path is a pure read -/

/-- C10: when the usage-ordered elective scan finds no free room of
adequate capacity but its group dictionary holds a room for the requested
course code, assign_suitable_room returns that room id with the store
unchanged: no slot of the new session is added to any room's register. -/
theorem C10_group_room_reuse_no_marking {ct dept sem code : String}
    {day start_slot duration : ℕ} {store : RoomMap} {enroll : EnrollData}
    {tt : SectionTT} {excl : List String} {exc : List String}
    {grp : List (String × String)} {rid : String}
    (hlab : (ct == "COMPUTER_LAB" || ct == "HARDWARE_LAB") = false)
    (helec : is_elective_course code = true)
    (hscan : electiveRoomScan tt (get_elective_group code)
      (requiredSizeFor enroll dept sem code) day start_slot duration
      (sortByUsage (lectureRoomsOf store) ++ sortByUsage (seaterRoomsOf store)) ([], [])
      = (none, (exc, grp)))
    (hgrp : dictGet grp code = some rid) :
    assign_suitable_room ct dept sem day start_slot duration (some store) enroll tt code
      excl = (some rid, some store) := by
  simp only [assign_suitable_room]
  rw [hlab, if_neg Bool.false_ne_true]
  have hc2 : (ct == "LEC" || ct == "TUT" || ct == "SELF_STUDY" ||
      is_elective_course code) = true := by
    rw [helec, Bool.or_true]
  rw [hc2, if_pos rfl, helec, if_pos rfl, hscan]
  dsimp only
  rw [hgrp]

/-- One lecture room occupied at slot 0 of day 0 by an already placed
session of the same elective course, recorded in the section grid. -/
def roomG : Room := ⟨60, "LECTURE_ROOM", "102", fun d => if d = 0 then {0} else ∅⟩

def storeG : RoomMap := [("RG", roomG)]

def ttG : SectionTT := writeSession emptyTT 0 0 .LEC "B1-X" "ElecX" "P" "RG"

theorem sortedG : sortByUsage (lectureRoomsOf storeG) ++ sortByUsage (seaterRoomsOf storeG)
    = [("RG", roomG)] := by
  rw [show lectureRoomsOf storeG = [("RG", roomG)] from rfl,
    show seaterRoomsOf storeG = ([] : RoomMap) from rfl, sortByUsage, sortByUsage,
    List.mergeSort_singleton, List.mergeSort_nil, List.append_nil]

theorem C10_group_room_reuse_no_marking_witness :
    assign_suitable_room "LEC" "CS" "4" 0 0 3 (some storeG) [] ttG "B1-X" [] =
      (some "RG", some storeG) :=
  @C10_group_room_reuse_no_marking "LEC" "CS" "4" "B1-X" 0 0 3 storeG [] ttG [] []
    [("B1-X", "RG")] "RG" (by decide) (by decide) (by rw [sortedG]; decide) (by decide)

end Timetable
